import Mathlib

/-!
Verification development for the personal-finance ledger in
`src/project_updated.cpp`.

The embedding models the core data layer: the stream-based date parser
(`parse_date`), the numeric text conversions (`stoi` / `stof` and the
decimal rendering used by `operator<<`), the per-user transaction store
and budget map (`std::map` modelled as a strictly key-sorted association
list), the aggregation functions (`calculateExpensesByCategory`,
`draw_summary`, `drawBudgetReport`, `draw_time_series_report`), and the
persistence codec (`saveToFile` / `loadFromFile`, modelled at the
granularity of text lines, which is exactly how the C++ code reads the
file via `getline`).

Abstractions used throughout, stated once here:
* C++ `float` amounts are modelled as exact rationals (`ℚ`); the 6
  significant-digit rounding of iostream formatting and float rounding
  are abstracted away.  Arithmetic on amounts is implemented by
  `qAdd` / `qSub` / `qDiv` / `qLeB` / `qLtB`, which are proved equal to
  the ordinary `ℚ` operations (they exist only because the library's
  `Rat.add` etc. are `@[irreducible]`, which blocks kernel evaluation).
* C++ `int` is modelled as unbounded `Int`; overflow does not matter for
  any claim considered here.
* Exceptions thrown by `stoi` / `stof` (and left uncaught by
  `loadFromFile`) are modelled by `Option`: a `none` result of the load
  is an exception escaping.
-/

namespace Finance

/-- C `isspace` in the default locale: space (32) and the characters 9..13. -/
def isSpaceCpp (c : Char) : Bool := c.toNat == 32 || (9 ≤ c.toNat && c.toNat ≤ 13)

/-- ASCII decimal digit test, `'0'..'9'`. -/
def isDigitC (c : Char) : Bool := 48 ≤ c.toNat && c.toNat ≤ 57

/-- Numeric value of a digit character. -/
def digitVal (c : Char) : Nat := c.toNat - 48

/-- Digit character for a value `0..9`. -/
def digitChar (n : Nat) : Char := Char.ofNat (48 + n)

/-- Value of a digit string, most significant digit first. -/
def natOfDigits (ds : List Char) : Nat := ds.foldl (fun a c => 10 * a + digitVal c) 0

/-- Fuelled decimal rendering of a natural number (fuel makes the
definition structurally recursive, hence kernel-computable). -/
def natDigitsF : Nat → Nat → List Char
  | 0, _ => []
  | f + 1, n => if n < 10 then [digitChar n] else natDigitsF f (n / 10) ++ [digitChar (n % 10)]

/-- Decimal digits of a natural number, as printed by C++ streams. -/
def natDigits (n : Nat) : List Char := natDigitsF (n + 1) n

/-- Decimal rendering of an `int`, as printed by `operator<<` / `to_string`. -/
def intDigits (i : Int) : List Char :=
  if i < 0 then '-' :: natDigits i.natAbs else natDigits i.natAbs

/-- `std::to_string` on an `int`. -/
def intToStr (i : Int) : String := String.mk (intDigits i)

/-- Read a maximal run of decimal digits (failure when there is none).
Building block of the `operator>>` integer extraction. -/
def readNat (cs : List Char) : Option (Nat × List Char) :=
  let ds := cs.takeWhile isDigitC
  if ds.isEmpty then none else some (natOfDigits ds, cs.dropWhile isDigitC)

/-- The `operator>>` extraction of an `int` from a stream: skip
whitespace, optional single sign, then a nonempty digit run.  This is
also the accepted language of `std::stoi` (base 10). -/
def readInt (cs : List Char) : Option (Int × List Char) :=
  let cs1 := cs.dropWhile isSpaceCpp
  let neg := cs1.headD ' ' = '-'
  let cs2 := if cs1.headD ' ' = '-' ∨ cs1.headD ' ' = '+' then cs1.tail else cs1
  match readNat cs2 with
  | none => none
  | some (n, r) => some (if neg then -(n : Int) else (n : Int), r)

/-- The `operator>>` extraction of a `char`: skip whitespace, take one
character; fails at end of input. -/
def readCharTok (cs : List Char) : Option (Char × List Char) :=
  match cs.dropWhile isSpaceCpp with
  | [] => none
  | c :: r => some (c, r)

/-- `std::stoi`, modelled as a fallible parse (`none` = the C++ call throws). -/
def stoiEmb (s : String) : Option Int := (readInt s.data).map (·.1)

/-- Embedding of `parse_date` (src/project_updated.cpp:100-107):
`ss >> year >> dash && dash == '-' && ss >> month >> dash && dash == '-' && ss >> day`. -/
def parse_date (s : String) : Option (Int × Int × Int) :=
  match readInt s.data with
  | none => none
  | some (y, r1) =>
    match readCharTok r1 with
    | none => none
    | some (c1, r2) =>
      if c1 = '-' then
        match readInt r2 with
        | none => none
        | some (m, r3) =>
          match readCharTok r3 with
          | none => none
          | some (c2, r4) =>
            if c2 = '-' then
              match readInt r4 with
              | none => none
              | some (d, _) => some (y, m, d)
            else none
      else none

/-- Build `n * 10 ^ e` as a rational, using only `mkRat` and integer
arithmetic (kernel-computable). -/
def qOfSci (n : Int) (e : Int) : ℚ :=
  if 0 ≤ e then mkRat (n * ((10 : Nat) ^ e.toNat : Nat)) 1 else mkRat n ((10 : Nat) ^ (-e).toNat)

/-- Exponent value of a trailing `e`/`E` exponent part; a malformed
exponent contributes `0`, matching `strtof`'s backtracking. -/
def expVal (cs : List Char) : Int :=
  let body := if cs.headD ' ' = '-' ∨ cs.headD ' ' = '+' then cs.tail else cs
  let ds := body.takeWhile isDigitC
  if ds.isEmpty then 0
  else if cs.headD ' ' = '-' then -(natOfDigits ds : Int) else (natOfDigits ds : Int)

/-- Exponent of a float literal: `0` unless the remainder starts with `e`/`E`. -/
def expOf (cs : List Char) : Int :=
  if cs.headD ' ' = 'e' ∨ cs.headD ' ' = 'E' then expVal cs.tail else 0

/-- Sign stage of `strtof`: the sign value and the remaining text. -/
def stofSign (cs1 : List Char) : Int × List Char :=
  if cs1.headD ' ' = '-' then (-1, cs1.tail)
  else if cs1.headD ' ' = '+' then (1, cs1.tail) else (1, cs1)

/-- Fraction stage of `strtof`: given the integer-part digits `ds1` and
the text after them, read an optional `.`-prefixed digit run, require at
least one digit in total, and assemble the value. -/
def stofFrac (sgn : Int) (ds1 cs3 : List Char) : Option ℚ :=
  let ds2 := if cs3.headD ' ' = '.' then cs3.tail.takeWhile isDigitC else []
  let cs4 := if cs3.headD ' ' = '.' then cs3.tail.dropWhile isDigitC else cs3
  if ds1.isEmpty && ds2.isEmpty then none
  else
    some (qOfSci (sgn * (natOfDigits ds1 * 10 ^ ds2.length + natOfDigits ds2))
      (expOf cs4 - ds2.length))

/-- Digits stage of `strtof`: split off the integer-part digit run. -/
def stofAfterSign (sgn : Int) (cs2 : List Char) : Option ℚ :=
  stofFrac sgn (cs2.takeWhile isDigitC) (cs2.dropWhile isDigitC)

/-- Core of `std::stof` (`strtof`, decimal form): optional whitespace and
sign, digits with an optional fractional part (at least one digit in
total), optional exponent; trailing characters are ignored.  Hexadecimal
floats and `inf`/`nan` forms are not modelled (no claim involves them). -/
def stofCore (cs0 : List Char) : Option ℚ :=
  stofAfterSign (stofSign (cs0.dropWhile isSpaceCpp)).1 (stofSign (cs0.dropWhile isSpaceCpp)).2

/-- `std::stof`, modelled as a fallible parse (`none` = the C++ call throws). -/
def stofEmb (s : String) : Option ℚ := stofCore s.data

/-- Decimal digits (exactly `k` of them) of the fractional value `n < 10 ^ k`. -/
def padDigits (k n : Nat) : List Char :=
  List.replicate (k - (natDigits n).length) '0' ++ natDigits n

/-- Exact decimal rendering of a rational whose denominator divides
`10 ^ den` (every stored float value is of this shape).  This models the
decimal text produced by `operator<<` on a `float`, abstracting from the
6-significant-digit rounding. -/
def printQChars (q : ℚ) : List Char :=
  let k := q.den
  let m := (q.num * (((10 : Nat) ^ k / q.den : Nat) : Int)).natAbs
  (if q.num < 0 then ['-'] else []) ++ natDigits (m / 10 ^ k) ++ '.' :: padDigits k (m % 10 ^ k)

/-- String form of `printQChars`. -/
def printQ (q : ℚ) : String := String.mk (printQChars q)

/-- `q` has an exact finite decimal representation (denominator of the
form `2^a * 5^b`; equivalently it divides `10 ^ q.den`). -/
def decimalRep (q : ℚ) : Bool := (10 : Nat) ^ q.den % q.den == 0

/-- Kernel-computable addition on `ℚ` (equal to `+`, see `qAdd_eq`). -/
def qAdd (a b : ℚ) : ℚ := mkRat (a.num * b.den + b.num * a.den) (a.den * b.den)

/-- Kernel-computable subtraction on `ℚ` (equal to `-`, see `qSub_eq`). -/
def qSub (a b : ℚ) : ℚ := mkRat (a.num * b.den - b.num * a.den) (a.den * b.den)

/-- Kernel-computable division on `ℚ` (equal to `/`, see `qDiv_eq`). -/
def qDiv (a b : ℚ) : ℚ :=
  mkRat (a.num * b.den * (if b.num < 0 then -1 else 1)) (a.den * b.num.natAbs)

/-- Kernel-computable `≤` test on `ℚ` (see `qLeB_eq`). -/
def qLeB (a b : ℚ) : Bool := a.num * b.den ≤ b.num * a.den

/-- Kernel-computable `<` test on `ℚ` (see `qLtB_eq`). -/
def qLtB (a b : ℚ) : Bool := a.num * b.den < b.num * a.den

/-- Lexicographic order on character lists; `std::string`'s `operator<`
(byte order and code-point order agree on UTF-8). -/
def listLt : List Char → List Char → Bool
  | [], [] => false
  | [], _ :: _ => true
  | _ :: _, [] => false
  | a :: as, b :: bs => a < b || (a == b && listLt as bs)

/-- `std::string` comparison used as the `std::map` key order. -/
def strLt (a b : String) : Bool := listLt a.data b.data

/-- Lookup in an association list (`std::map::find` / reading `operator[]`). -/
def mapFind (m : List (String × ℚ)) (k : String) : Option ℚ :=
  match m with
  | [] => none
  | (k', v) :: r => if k = k' then some v else mapFind r k

/-- Lookup with the `0.0` default a fresh `operator[]` entry would hold. -/
def mapFindD (m : List (String × ℚ)) (k : String) : ℚ := (mapFind m k).getD 0

/-- Insert-or-overwrite keeping the list strictly sorted by key: the
`std::map` assignment `m[k] = v`. -/
def mapInsert (m : List (String × ℚ)) (k : String) (v : ℚ) : List (String × ℚ) :=
  match m with
  | [] => [(k, v)]
  | (k', v') :: r =>
    if strLt k k' then (k, v) :: (k', v') :: r
    else if k = k' then (k, v) :: r
    else (k', v') :: mapInsert r k v

/-- `m[k] += v` on a `std::map` (absent key default-constructs `0.0`). -/
def mapAddTo (m : List (String × ℚ)) (k : String) (v : ℚ) : List (String × ℚ) :=
  mapInsert m k (qAdd (mapFindD m k) v)

/-- Keys of the association list. -/
def mapKeys (m : List (String × ℚ)) : List String := m.map (·.1)

/-- The `std::map` representation invariant: strictly increasing keys. -/
def mapSortedB : List (String × ℚ) → Bool
  | [] => true
  | [_] => true
  | a :: b :: r => strLt a.1 b.1 && mapSortedB (b :: r)

/-- Split of a character stream by repeated `getline(ss, tok, d)` calls:
like an ordinary split, except that an empty input yields no token and a
trailing delimiter does not produce a trailing empty token. -/
def cppSplitAcc (d : Char) (acc : List Char) : List Char → List (List Char)
  | [] => [acc]
  | c :: cs =>
    if c = d then
      match cs with
      | [] => [acc]
      | _ :: _ => acc :: cppSplitAcc d [] cs
    else cppSplitAcc d (acc ++ [c]) cs

/-- `getline`-style split (see `cppSplitAcc`). -/
def cppSplit (d : Char) (cs : List Char) : List (List Char) :=
  match cs with
  | [] => []
  | _ :: _ => cppSplitAcc d [] cs

/-- `line.rfind(tag, 0) == 0`: does `cs` start with `ts`? -/
def tagMatch : List Char → List Char → Bool
  | [], _ => true
  | _ :: _, [] => false
  | t :: ts, c :: cs => t == c && tagMatch ts cs

/-- `part.find(':')` followed by the two `substr` calls: split at the
first colon, `none` when there is no colon. -/
def colonSplit (p : List Char) : Option (List Char × List Char) :=
  match p.dropWhile (· ≠ ':') with
  | _ :: post => some (p.takeWhile (· ≠ ':'), post)
  | [] => none

/-- The `Transaction` struct (src/project_updated.cpp:20-27), with
`float amount` modelled as `ℚ`. -/
structure Transaction where
  date : String
  category : String
  description : String
  amount : ℚ
  type : Char
  id : Int
deriving DecidableEq

/-- The `UserProfile` struct (src/project_updated.cpp:29-35); the
`map<string, float>` is a strictly key-sorted association list. -/
structure UserProfile where
  username : String
  password : String
  transactions : List Transaction
  budgetPerCategory : List (String × ℚ)
  next_transaction_id : Int := 1
deriving DecidableEq

/-- `calculateExpensesByCategory` (src/project_updated.cpp:74-80):
`if (t.type == 'E') expenses[t.category] += t.amount`. -/
def calculateExpensesByCategory (transactions : List Transaction) : List (String × ℚ) :=
  transactions.foldl (fun m t => if t.type = 'E' then mapAddTo m t.category t.amount else m) []

/-- Totals of `draw_summary` (src/project_updated.cpp:377-381):
`(totalIncome, totalExpense)`; kinds other than `'I'` / `'E'` count in
neither total. -/
def summaryTotals (transactions : List Transaction) : ℚ × ℚ :=
  transactions.foldl
    (fun p t =>
      if t.type = 'I' then (qAdd p.1 t.amount, p.2)
      else if t.type = 'E' then (p.1, qAdd p.2 t.amount) else p)
    (0, 0)

/-- Month bucket key (src/project_updated.cpp:486):
`to_string(year) + "-" + (month < 10 ? "0" : "") + to_string(month)`. -/
def monthKey (year month : Int) : String :=
  intToStr year ++ "-" ++ (if month < 10 then "0" else "") ++ intToStr month

/-- Year bucket key: `to_string(year)`. -/
def yearKey (year : Int) : String := intToStr year

/-- The four maps built by the loop of `draw_time_series_report`
(src/project_updated.cpp:477-497): monthly/yearly income and expense.
Note the `else` branch: every kind other than `'I'` is accumulated as
expense. -/
structure TSMaps where
  monthlyIncome : List (String × ℚ)
  monthlyExpense : List (String × ℚ)
  yearlyIncome : List (String × ℚ)
  yearlyExpense : List (String × ℚ)

/-- One loop step of the time-series accumulation. -/
def tsStep (a : TSMaps) (t : Transaction) : TSMaps :=
  match parse_date t.date with
  | none => a
  | some (year, month, _) =>
    if t.type = 'I' then
      { a with
        monthlyIncome := mapAddTo a.monthlyIncome (monthKey year month) t.amount
        yearlyIncome := mapAddTo a.yearlyIncome (yearKey year) t.amount }
    else
      { a with
        monthlyExpense := mapAddTo a.monthlyExpense (monthKey year month) t.amount
        yearlyExpense := mapAddTo a.yearlyExpense (yearKey year) t.amount }

/-- The accumulation loop of `draw_time_series_report`. -/
def tsMaps (transactions : List Transaction) : TSMaps :=
  transactions.foldl tsStep ⟨[], [], [], []⟩

/-- One displayed row of a time-series summary. -/
structure TSRow where
  key : String
  income : ℚ
  expense : ℚ
  net : ℚ
deriving DecidableEq

/-- Rows emitted for one section of the report
(src/project_updated.cpp:503-512 and 518-526): the *income* map is
copied to a vector, sorted by key (a no-op, since `std::map` iterates in
ascending key order), and each row looks up the matching expense with
`expense_map[key]` (default `0`). -/
def tsRows (incomeMap expenseMap : List (String × ℚ)) : List TSRow :=
  incomeMap.map fun kv =>
    ⟨kv.1, kv.2, mapFindD expenseMap kv.1, qSub kv.2 (mapFindD expenseMap kv.1)⟩

/-- The monthly summary rows of `draw_time_series_report`. -/
def monthlyRows (transactions : List Transaction) : List TSRow :=
  tsRows (tsMaps transactions).monthlyIncome (tsMaps transactions).monthlyExpense

/-- The yearly summary rows of `draw_time_series_report`. -/
def yearlyRows (transactions : List Transaction) : List TSRow :=
  tsRows (tsMaps transactions).yearlyIncome (tsMaps transactions).yearlyExpense

/-- Status of one budget-report line, named after the colors of
`drawBudgetReport` (red / orange / black). -/
inductive BudgetStatus where
  | Exceeded : BudgetStatus
  | Warning : BudgetStatus
  | OK : BudgetStatus
deriving DecidableEq

/-- The status decision of `drawBudgetReport` (src/project_updated.cpp:406-411):
red when `spent > budget`, orange when `budget > 0 && spent / budget >= 0.9`. -/
def statusOf (budget spent : ℚ) : BudgetStatus :=
  if qLtB budget spent then .Exceeded
  else if qLtB 0 budget && qLeB (mkRat 9 10) (qDiv spent budget) then .Warning
  else .OK

/-- One line of the budget report. -/
structure BudgetRow where
  category : String
  budget : ℚ
  spent : ℚ
  status : BudgetStatus
deriving DecidableEq

/-- `drawBudgetReport` (src/project_updated.cpp:394-424): one line per
entry of the budget map, with `spent = expenses[cat]` (default `0`). -/
def budgetRows (user : UserProfile) : List BudgetRow :=
  user.budgetPerCategory.map fun kv =>
    ⟨kv.1, kv.2, mapFindD (calculateExpensesByCategory user.transactions) kv.1,
      statusOf kv.2 (mapFindD (calculateExpensesByCategory user.transactions) kv.1)⟩

/-- The add operation (src/project_updated.cpp:223):
`user.transactions.push_back({..., user.next_transaction_id++})`. -/
def addTransaction (u : UserProfile) (date category description : String) (amount : ℚ)
    (ty : Char) : UserProfile :=
  { u with
    transactions := u.transactions ++ [⟨date, category, description, amount, ty,
      u.next_transaction_id⟩]
    next_transaction_id := u.next_transaction_id + 1 }

/-- `find_if` + `erase` on the first transaction matching the id
(src/project_updated.cpp:286-356). -/
def eraseFirst (p : Transaction → Bool) : List Transaction → List Transaction
  | [] => []
  | t :: ts => if p t then ts else t :: eraseFirst p ts

/-- The delete operation: erase the first transaction with the given id
(a no-op when the id is absent, matching the guarded C++ path). -/
def deleteTransaction (u : UserProfile) (tid : Int) : UserProfile :=
  { u with transactions := eraseFirst (fun t => t.id == tid) u.transactions }

/-- `find_if` + in-place mutation of the found element
(src/project_updated.cpp:286-353). -/
def updateFirst (p : Transaction → Bool) (f : Transaction → Transaction) :
    List Transaction → List Transaction
  | [] => []
  | t :: ts => if p t then f t :: ts else t :: updateFirst p f ts

/-- The field edits of the Edit branch (src/project_updated.cpp:321-348):
an empty input leaves the field unchanged; an unparseable amount and an
invalid type letter also leave their field unchanged; `id` is not
touched. -/
def editFields (t : Transaction) (nd nc ns na nt : String) : Transaction :=
  { t with
    date := if nd = "" then t.date else nd
    category := if nc = "" then t.category else nc
    description := if ns = "" then t.description else ns
    amount := if na = "" then t.amount else
      match stofEmb na with
      | some v => v
      | none => t.amount
    type := if nt = "" then t.type else
      if (nt.data.headD ' ').toUpper = 'I' ∨ (nt.data.headD ' ').toUpper = 'E' then
        (nt.data.headD ' ').toUpper
      else t.type }

/-- The update operation of `edit_delete_transaction_ui`: edit the first
transaction whose id matches; not-found leaves the profile unchanged. -/
def updateTransaction (u : UserProfile) (tid : Int) (nd nc ns na nt : String) : UserProfile :=
  { u with transactions :=
      updateFirst (fun t => t.id == tid) (fun t => editFields t nd nc ns na nt) u.transactions }

/-- A store operation of claim C2: an add (with its field inputs) or a
delete by id. -/
inductive StoreOp where
  | addOp (date category description : String) (amount : ℚ) (ty : Char) : StoreOp
  | delOp (tid : Int) : StoreOp

/-- Apply one store operation. -/
def applyOp (u : UserProfile) : StoreOp → UserProfile
  | .addOp d c s a k => addTransaction u d c s a k
  | .delOp tid => deleteTransaction u tid

/-- Run a sequence of store operations, also returning the ids assigned
by the add operations, in order. -/
def runOps (u : UserProfile) : List StoreOp → UserProfile × List Int
  | [] => (u, [])
  | .addOp d c s a k :: ops =>
    let r := runOps (addTransaction u d c s a k) ops
    (r.1, u.next_transaction_id :: r.2)
  | .delOp tid :: ops => runOps (deleteTransaction u tid) ops

/-- A freshly registered profile (src/project_updated.cpp:684): empty
store, empty budgets, `next_transaction_id = 1`. -/
def freshProfile : UserProfile := ⟨"", "", [], [], 1⟩

/-- The `BUDGETS|` payload (src/project_updated.cpp:548-552):
`cat << ":" << val << ","` per entry, in `std::map` (key-sorted) order. -/
def budgetsStr : List (String × ℚ) → String
  | [] => ""
  | kv :: r => kv.1 ++ ":" ++ printQ kv.2 ++ "," ++ budgetsStr r

/-- One `TRANS|` line (src/project_updated.cpp:555). -/
def transLine (t : Transaction) : String :=
  "TRANS|" ++ intToStr t.id ++ "|" ++ t.date ++ "|" ++ t.category ++ "|" ++ t.description
    ++ "|" ++ printQ t.amount ++ "|" ++ String.mk [t.type]

/-- The lines written for one profile by `saveToFile`
(src/project_updated.cpp:544-557). -/
def userLines (u : UserProfile) : List String :=
  ("USER|" ++ u.username ++ "|" ++ u.password)
    :: ("NEXT_ID|" ++ intToStr u.next_transaction_id)
    :: ("BUDGETS|" ++ budgetsStr u.budgetPerCategory)
    :: (u.transactions.map transLine ++ ["ENDUSER"])

/-- `saveToFile` (src/project_updated.cpp:538-560), at the granularity
of the text lines it writes. -/
def saveToFile (users : List UserProfile) : List String :=
  (users.map userLines).flatten

/-- Loader state: completed profiles plus the profile the `currentUser`
pointer designates (`none` models the null pointer). -/
structure LoadState where
  users : List UserProfile
  cur : Option UserProfile

/-- The finished profile list: the C++ `users` vector contains the
in-progress profile as its last element. -/
def finishLoad (st : LoadState) : List UserProfile := st.users ++ st.cur.toList

/-- Parse of the `BUDGETS|` payload (src/project_updated.cpp:585-597):
split on `','`, skip empty parts and parts without `':'`, otherwise
`m[cat] = stof(rest)` — where a `stof` failure is an exception escaping
(`none`). -/
def parseBudgets (m : List (String × ℚ)) : List (List Char) → Option (List (String × ℚ))
  | [] => some m
  | p :: ps =>
    if p.isEmpty then parseBudgets m ps
    else
      match colonSplit p with
      | none => parseBudgets m ps
      | some (cat, rest) =>
        match stofCore rest with
        | none => none
        | some v => parseBudgets (mapInsert m (String.mk cat) v) ps

/-- Processing of one line by `loadFromFile`
(src/project_updated.cpp:573-617).  The branch structure and guard order
mirror the C++ `if`/`else if` chain; `none` models an uncaught
`stoi`/`stof` exception escaping the function. -/
def loadLineCore (st : LoadState) (l : List Char) : Option LoadState :=
  if tagMatch "USER|".data l then
    let parts := cppSplit '|' l
    some ⟨st.users ++ st.cur.toList,
      some ⟨String.mk (parts.getD 1 []), String.mk (parts.getD 2 []), [], [], 1⟩⟩
  else if tagMatch "NEXT_ID|".data l then
    match st.cur with
    | none => some st
    | some u =>
      match (readInt (l.drop 8)).map (·.1) with
      | none => none
      | some n => some ⟨st.users, some { u with next_transaction_id := n }⟩
  else if tagMatch "BUDGETS|".data l then
    match st.cur with
    | none => some st
    | some u =>
      match parseBudgets u.budgetPerCategory (cppSplit ',' (l.drop 8)) with
      | none => none
      | some m => some ⟨st.users, some { u with budgetPerCategory := m }⟩
  else if tagMatch "TRANS|".data l then
    match st.cur with
    | none => some st
    | some u =>
      let parts := cppSplit '|' l
      if parts.length = 7 then
        match (readInt (parts.getD 1 [])).map (·.1), stofCore (parts.getD 5 []) with
        | some tid, some amt =>
          some ⟨st.users, some { u with transactions := u.transactions ++
            [⟨String.mk (parts.getD 2 []), String.mk (parts.getD 3 []),
              String.mk (parts.getD 4 []), amt, (parts.getD 6 []).headD (Char.ofNat 0), tid⟩]}⟩
        | _, _ => none
      else some st
  else if l = "ENDUSER".data then some ⟨st.users ++ st.cur.toList, none⟩
  else some st

/-- Process a list of lines, stopping with `none` when an exception
escapes. -/
def loadAll (st : LoadState) : List (List Char) → Option LoadState
  | [] => some st
  | l :: ls =>
    match loadLineCore st l with
    | none => none
    | some st' => loadAll st' ls

/-- `loadFromFile` (src/project_updated.cpp:565-620) on the lines of the
file; `none` models an uncaught exception. -/
def loadFromFile (lines : List String) : Option (List UserProfile) :=
  (loadAll ⟨[], none⟩ (lines.map String.data)).map finishLoad

/-- Character well-formedness of a free-text field stored in a
`|`-separated record line: no separator, no line break. -/
def wfStr (s : String) : Bool := s.data.all fun c => ¬(c = '|' ∨ c = '\n')

/-- Well-formedness of a budget category name: it must survive the
`','`-split and first-`':'` split of the `BUDGETS|` payload. -/
def wfBudgetKey (s : String) : Bool := s.data.all fun c => ¬(c = ',' ∨ c = ':' ∨ c = '\n')

/-- Well-formedness of one transaction for exact round-tripping. -/
def wfTrans (t : Transaction) : Bool :=
  wfStr t.date && wfStr t.category && wfStr t.description && decimalRep t.amount &&
    !(t.type = '|') && !(t.type = '\n')

/-- Well-formedness of a profile for exact round-tripping: separator-free
strings, the `std::map` sortedness invariant on the budgets, and amounts
with exact decimal representations. -/
def wfProfile (u : UserProfile) : Bool :=
  wfStr u.username && wfStr u.password && u.transactions.all wfTrans &&
    mapSortedB u.budgetPerCategory &&
    u.budgetPerCategory.all (fun kv => wfBudgetKey kv.1 && decimalRep kv.2)

/-- Safety of one line for claim C5: every numeric field the loader would
feed to `stoi` / `stof` parses.  (The guard order mirrors
`loadLineCore`.) -/
def lineSafe (l : List Char) : Bool :=
  if tagMatch "USER|".data l then true
  else if tagMatch "NEXT_ID|".data l then (readInt (l.drop 8)).isSome
  else if tagMatch "BUDGETS|".data l then
    (cppSplit ',' (l.drop 8)).all fun p =>
      p.isEmpty ||
        match colonSplit p with
        | none => true
        | some (_, rest) => (stofCore rest).isSome
  else if tagMatch "TRANS|".data l then
    (cppSplit '|' l).length ≠ 7 ||
      ((readInt ((cppSplit '|' l).getD 1 [])).isSome &&
        (stofCore ((cppSplit '|' l).getD 5 [])).isSome)
  else true

/-- A run of C-locale whitespace. -/
def IsWsRun (cs : List Char) : Prop := ∀ c ∈ cs, isSpaceCpp c = true

/-- A nonempty run of decimal digits. -/
def IsDigitRun (cs : List Char) : Prop := cs ≠ [] ∧ ∀ c ∈ cs, isDigitC c = true

/-- `cs` is a stream-integer literal with value `v`: an optional single
sign directly followed by a nonempty digit run.  This is the meaning of
`<int>` in the spec's `<int>-<int>-<int>` date shape, read with C++
stream semantics. -/
def IntLit (cs : List Char) (v : Int) : Prop :=
  (∃ ds, IsDigitRun ds ∧ cs = ds ∧ v = (natOfDigits ds : Int)) ∨
    (∃ ds, IsDigitRun ds ∧ cs = '+' :: ds ∧ v = (natOfDigits ds : Int)) ∨
      (∃ ds, IsDigitRun ds ∧ cs = '-' :: ds ∧ v = -(natOfDigits ds : Int))

/-- The spec's date shape `<int>-<int>-<int>` (claim C7): three stream
integers separated by literal dashes, with the whitespace skipping the
stream extraction performs, and arbitrary text after the third integer's
digit run. -/
def DateForm (s : String) (y m d : Int) : Prop :=
  ∃ w0 i1 w1 w2 i2 w3 w4 i3 rest,
    s.data = w0 ++ i1 ++ w1 ++ '-' :: (w2 ++ i2 ++ w3 ++ '-' :: (w4 ++ i3 ++ rest)) ∧
      IsWsRun w0 ∧ IsWsRun w1 ∧ IsWsRun w2 ∧ IsWsRun w3 ∧ IsWsRun w4 ∧
        IntLit i1 y ∧ IntLit i2 m ∧ IntLit i3 d ∧ isDigitC (rest.headD ' ') = false

/-- Monthly bucket key of a transaction, when its date parses. -/
def monthOf (t : Transaction) : Option String :=
  (parse_date t.date).map fun p => monthKey p.1 p.2.1

/-- Yearly bucket key of a transaction, when its date parses. -/
def yearOf (t : Transaction) : Option String :=
  (parse_date t.date).map fun p => yearKey p.1

/-- Sum of the amounts of the transactions satisfying a predicate. -/
def sumWhere (p : Transaction → Bool) (ts : List Transaction) : ℚ :=
  ((ts.filter p).map (·.amount)).sum

/-- Generic `std::map` accumulation: for each transaction selected by
`sel`, add the selected amount at the selected key. -/
def accumBy (sel : Transaction → Option (String × ℚ)) (m : List (String × ℚ))
    (ts : List Transaction) : List (String × ℚ) :=
  ts.foldl
    (fun acc t =>
      match sel t with
      | some kv => mapAddTo acc kv.1 kv.2
      | none => acc)
    m

/-- Selector for the monthly income map of the time-series loop. -/
def selMonthlyInc (t : Transaction) : Option (String × ℚ) :=
  if (parse_date t.date).isSome && t.type == 'I' then some ((monthOf t).getD "", t.amount)
  else none

/-- Selector for the monthly expense map of the time-series loop (note:
every kind other than `'I'` counts as expense there). -/
def selMonthlyExp (t : Transaction) : Option (String × ℚ) :=
  if (parse_date t.date).isSome && !(t.type == 'I') then some ((monthOf t).getD "", t.amount)
  else none

/-- Selector for the yearly income map of the time-series loop. -/
def selYearlyInc (t : Transaction) : Option (String × ℚ) :=
  if (parse_date t.date).isSome && t.type == 'I' then some ((yearOf t).getD "", t.amount)
  else none

/-- Selector for the yearly expense map of the time-series loop. -/
def selYearlyExp (t : Transaction) : Option (String × ℚ) :=
  if (parse_date t.date).isSome && !(t.type == 'I') then some ((yearOf t).getD "", t.amount)
  else none

/-- Selector for `calculateExpensesByCategory` (only kind `'E'`). -/
def selExpenseCat (t : Transaction) : Option (String × ℚ) :=
  if t.type == 'E' then some (t.category, t.amount) else none

/-- Sum of the selected amounts whose selected key is `k`. -/
def keySum (sel : Transaction → Option (String × ℚ)) (ts : List Transaction) (k : String) : ℚ :=
  (((ts.filterMap sel).filter (fun p => p.1 = k)).map (·.2)).sum

/-- Example transactions used by concrete witnesses: the spec's §8
time-series example. -/
def exC3 : List Transaction :=
  [⟨"2024-01-15", "Salary", "s", 100, 'I', 1⟩,
   ⟨"2024-01-20", "Food", "f", 40, 'E', 2⟩,
   ⟨"2024-02-01", "Gift", "g", 50, 'I', 3⟩,
   ⟨"2024/03/01", "Bad", "b", 999, 'E', 4⟩]

/-- Example profile used by concrete witnesses: budget 20, spent 18
(the spec's §8 Warning example). -/
def exC4 : UserProfile :=
  ⟨"alice", "pw", [⟨"2024-01-01", "Food", "l", 18, 'E', 1⟩], [("Food", 20)], 2⟩

theorem digit_toNat {c : Char} (h : isDigitC c = true) : 48 ≤ c.toNat ∧ c.toNat ≤ 57 := by
  simpa [isDigitC] using h

theorem not_space_of_digit {c : Char} (h : isDigitC c = true) : isSpaceCpp c = false := by
  have := digit_toNat h
  simp [isSpaceCpp]
  omega

theorem digit_ne {c d : Char} (h : isDigitC c = true) (hd : isDigitC d = false) : c ≠ d := by
  intro e
  rw [e, hd] at h
  cases h

theorem digitVal_digitChar {n : Nat} (h : n < 10) : digitVal (digitChar n) = n := by
  interval_cases n <;> decide

theorem isDigitC_digitChar {n : Nat} (h : n < 10) : isDigitC (digitChar n) = true := by
  interval_cases n <;> decide

theorem natDigitsF_congr : ∀ f g n, n < f → n < g → natDigitsF f n = natDigitsF g n := by
  intro f
  induction f with
  | zero => intro g n h; omega
  | succ f ih =>
    intro g n hf hg
    match g, hg with
    | g + 1, _ =>
      show natDigitsF (f + 1) n = natDigitsF (g + 1) n
      by_cases h10 : n < 10
      · simp [natDigitsF, h10]
      · have hd : n / 10 < n := Nat.div_lt_self (by omega) (by omega)
        simp only [natDigitsF, if_neg h10]
        rw [ih g (n / 10) (by omega) (by omega)]

theorem natDigits_small {n : Nat} (h : n < 10) : natDigits n = [digitChar n] := by
  simp [natDigits, natDigitsF, h]

theorem natDigits_big {n : Nat} (h : 10 ≤ n) :
    natDigits n = natDigits (n / 10) ++ [digitChar (n % 10)] := by
  have hd : n / 10 < n := Nat.div_lt_self (by omega) (by omega)
  show natDigitsF (n + 1) n = _
  simp only [natDigitsF, if_neg (by omega : ¬n < 10)]
  rw [natDigitsF_congr n (n / 10 + 1) (n / 10) (by omega) (by omega)]
  rfl

theorem natOfDigits_acc (ds : List Char) :
    ∀ acc, ds.foldl (fun a c => 10 * a + digitVal c) acc =
      acc * 10 ^ ds.length + natOfDigits ds := by
  induction ds with
  | nil => intro acc; simp [natOfDigits]
  | cons c ds ih =>
    intro acc
    show List.foldl _ (10 * acc + digitVal c) ds = _
    rw [ih]
    have : natOfDigits (c :: ds) = digitVal c * 10 ^ ds.length + natOfDigits ds := by
      show List.foldl _ (10 * 0 + digitVal c) ds = _
      rw [ih]
      ring_nf
    rw [this]
    simp [List.length_cons]
    ring

theorem natOfDigits_append (a b : List Char) :
    natOfDigits (a ++ b) = natOfDigits a * 10 ^ b.length + natOfDigits b := by
  show List.foldl _ _ (a ++ b) = _
  rw [List.foldl_append]
  exact natOfDigits_acc b (natOfDigits a)

theorem natOfDigits_natDigits (n : Nat) : natOfDigits (natDigits n) = n := by
  induction n using Nat.strong_induction_on with
  | _ n ih =>
    by_cases h : n < 10
    · rw [natDigits_small h]
      show 10 * 0 + digitVal (digitChar n) = n
      rw [digitVal_digitChar h]
      omega
    · have hd : n / 10 < n := Nat.div_lt_self (by omega) (by omega)
      rw [natDigits_big (by omega), natOfDigits_append, ih _ hd]
      have : natOfDigits [digitChar (n % 10)] = n % 10 := by
        show 10 * 0 + digitVal (digitChar (n % 10)) = n % 10
        rw [digitVal_digitChar (by omega)]
        omega
      rw [this]
      simp
      omega

theorem natDigits_all_digit (n : Nat) : ∀ c ∈ natDigits n, isDigitC c = true := by
  induction n using Nat.strong_induction_on with
  | _ n ih =>
    by_cases h : n < 10
    · rw [natDigits_small h]
      intro c hc
      rw [List.mem_singleton] at hc
      rw [hc]
      exact isDigitC_digitChar h
    · have hd : n / 10 < n := Nat.div_lt_self (by omega) (by omega)
      rw [natDigits_big (by omega)]
      intro c hc
      rcases List.mem_append.1 hc with h1 | h2
      · exact ih _ hd c h1
      · rw [List.mem_singleton] at h2
        rw [h2]
        exact isDigitC_digitChar (by omega)

theorem natDigits_ne_nil (n : Nat) : natDigits n ≠ [] := by
  by_cases h : n < 10
  · rw [natDigits_small h]; simp
  · rw [natDigits_big (by omega)]; simp

theorem natDigits_len_le : ∀ n k, 1 ≤ k → n < 10 ^ k → (natDigits n).length ≤ k := by
  intro n
  induction n using Nat.strong_induction_on with
  | _ n ih =>
    intro k hk hn
    by_cases h : n < 10
    · rw [natDigits_small h]
      simpa using hk
    · have hd : n / 10 < n := Nat.div_lt_self (by omega) (by omega)
      have hk2 : 2 ≤ k := by
        by_contra hc
        have : k = 1 := by omega
        rw [this] at hn
        simp at hn
        omega
      rw [natDigits_big (by omega)]
      have hq : n / 10 < 10 ^ (k - 1) := by
        rw [Nat.div_lt_iff_lt_mul (by omega)]
        have : 10 ^ (k - 1) * 10 = 10 ^ k := by
          rw [← pow_succ]
          congr 1
          omega
        omega
      have := ih _ hd (k - 1) (by omega) hq
      simp [List.length_append]
      omega

theorem natOfDigits_replicate_zero (j : Nat) : natOfDigits (List.replicate j '0') = 0 := by
  induction j with
  | zero => rfl
  | succ j ih =>
    show natOfDigits ('0' :: List.replicate j '0') = 0
    have : ('0' :: List.replicate j '0') = [('0' : Char)] ++ List.replicate j '0' := rfl
    rw [this, natOfDigits_append, ih]
    simp [natOfDigits, digitVal]

theorem qAdd_eq (a b : ℚ) : qAdd a b = a + b := by
  rw [qAdd, Rat.mkRat_eq_div]
  have ha : (a.den : ℚ) ≠ 0 := by
    exact_mod_cast a.den_nz
  have hb : (b.den : ℚ) ≠ 0 := by
    exact_mod_cast b.den_nz
  conv_rhs => rw [← Rat.num_div_den a, ← Rat.num_div_den b, div_add_div _ _ ha hb]
  push_cast
  ring_nf

theorem qSub_eq (a b : ℚ) : qSub a b = a - b := by
  rw [qSub, Rat.mkRat_eq_div]
  have ha : (a.den : ℚ) ≠ 0 := by
    exact_mod_cast a.den_nz
  have hb : (b.den : ℚ) ≠ 0 := by
    exact_mod_cast b.den_nz
  conv_rhs => rw [← Rat.num_div_den a, ← Rat.num_div_den b, div_sub_div _ _ ha hb]
  push_cast
  ring_nf

theorem qDiv_eq (a b : ℚ) : qDiv a b = a / b := by
  rcases lt_trichotomy b.num 0 with hb | hb | hb
  · have h1 : (a.den : ℚ) ≠ 0 := by exact_mod_cast a.den_nz
    have h2 : (b.den : ℚ) ≠ 0 := by exact_mod_cast b.den_nz
    have h3 : (b.num : ℚ) ≠ 0 := by exact_mod_cast (by omega : b.num ≠ 0)
    have key : a / b = ((a.num : ℚ) * b.den) / ((a.den : ℚ) * b.num) := by
      conv_lhs => rw [← Rat.num_div_den a, ← Rat.num_div_den b]
      field_simp
    have habs : ((b.num.natAbs : ℕ) : ℚ) = -(b.num : ℚ) := by
      rw [Int.cast_natAbs, Int.cast_abs]
      exact abs_of_neg (by exact_mod_cast hb)
    rw [qDiv, if_pos hb, Rat.mkRat_eq_div, key]
    push_cast
    rw [habs, div_eq_div_iff (by exact mul_ne_zero h1 (neg_ne_zero.2 h3))
      (by exact mul_ne_zero h1 h3)]
    ring
  · have hb0 : b = 0 := by rwa [Rat.num_eq_zero] at hb
    subst hb0
    rw [qDiv, div_zero]
    simp [mkRat]
  · have h1 : (a.den : ℚ) ≠ 0 := by exact_mod_cast a.den_nz
    have h2 : (b.den : ℚ) ≠ 0 := by exact_mod_cast b.den_nz
    have h3 : (b.num : ℚ) ≠ 0 := by exact_mod_cast (by omega : b.num ≠ 0)
    have key : a / b = ((a.num : ℚ) * b.den) / ((a.den : ℚ) * b.num) := by
      conv_lhs => rw [← Rat.num_div_den a, ← Rat.num_div_den b]
      field_simp
    have habs : ((b.num.natAbs : ℕ) : ℚ) = (b.num : ℚ) := by
      rw [Int.cast_natAbs, Int.cast_abs]
      exact abs_of_pos (by exact_mod_cast hb)
    rw [qDiv, if_neg (by omega), Rat.mkRat_eq_div, key]
    push_cast
    rw [habs]
    ring

theorem qLeB_eq (a b : ℚ) : qLeB a b = true ↔ a ≤ b := by
  rw [qLeB, decide_eq_true_iff]
  have ha : (0 : ℚ) < a.den := by exact_mod_cast a.pos
  have hb : (0 : ℚ) < b.den := by exact_mod_cast b.pos
  constructor
  · intro h
    rw [← Rat.num_div_den a, ← Rat.num_div_den b, div_le_div_iff₀ ha hb]
    exact_mod_cast h
  · intro h
    rw [← Rat.num_div_den a, ← Rat.num_div_den b, div_le_div_iff₀ ha hb] at h
    exact_mod_cast h

theorem qLtB_eq (a b : ℚ) : qLtB a b = true ↔ a < b := by
  rw [qLtB, decide_eq_true_iff]
  have ha : (0 : ℚ) < a.den := by exact_mod_cast a.pos
  have hb : (0 : ℚ) < b.den := by exact_mod_cast b.pos
  constructor
  · intro h
    rw [← Rat.num_div_den a, ← Rat.num_div_den b, div_lt_div_iff₀ ha hb]
    exact_mod_cast h
  · intro h
    rw [← Rat.num_div_den a, ← Rat.num_div_den b, div_lt_div_iff₀ ha hb] at h
    exact_mod_cast h


theorem listLt_cons {a b : Char} {as bs : List Char} :
    listLt (a :: as) (b :: bs) = true ↔ a < b ∨ (a = b ∧ listLt as bs = true) := by
  rw [listLt]
  simp

theorem listLt_irrefl (a : List Char) : listLt a a = false := by
  induction a with
  | nil => rfl
  | cons c cs ih =>
    rw [listLt]
    simp [ih]

theorem listLt_trans : ∀ {a b c : List Char},
    listLt a b = true → listLt b c = true → listLt a c = true := by
  intro a
  induction a with
  | nil =>
    intro b c h1 h2
    cases b with
    | nil => cases h1
    | cons y ys =>
      cases c with
      | nil => cases h2
      | cons z zs => rfl
  | cons x xs ih =>
    intro b c h1 h2
    cases b with
    | nil => cases h1
    | cons y ys =>
      cases c with
      | nil => cases h2
      | cons z zs =>
        rw [listLt_cons] at h1 h2 ⊢
        rcases h1 with h1 | ⟨he1, h1⟩
        · rcases h2 with h2 | ⟨he2, h2⟩
          · exact Or.inl (lt_trans h1 h2)
          · exact Or.inl (he2 ▸ h1)
        · rcases h2 with h2 | ⟨he2, h2⟩
          · exact Or.inl (he1 ▸ h2)
          · exact Or.inr ⟨he1.trans he2, ih h1 h2⟩

theorem listLt_asymm {a b : List Char} (h : listLt a b = true) : listLt b a = false := by
  by_contra hc
  rw [Bool.not_eq_false] at hc
  have := listLt_trans h hc
  rw [listLt_irrefl a] at this
  cases this

theorem listLt_ne {a b : List Char} (h : listLt a b = true) : a ≠ b := by
  intro he
  rw [he, listLt_irrefl] at h
  cases h

theorem listLt_total {a b : List Char} (h : a ≠ b) :
    listLt a b = true ∨ listLt b a = true := by
  induction a generalizing b with
  | nil =>
    cases b with
    | nil => exact absurd rfl h
    | cons y ys => exact Or.inl rfl
  | cons x xs ih =>
    cases b with
    | nil => exact Or.inr rfl
    | cons y ys =>
      rcases lt_trichotomy x y with hxy | hxy | hxy
      · exact Or.inl (listLt_cons.2 (Or.inl hxy))
      · subst hxy
        have hne : xs ≠ ys := by
          intro he
          exact h (by rw [he])
        rcases ih hne with h1 | h1
        · exact Or.inl (listLt_cons.2 (Or.inr ⟨rfl, h1⟩))
        · exact Or.inr (listLt_cons.2 (Or.inr ⟨rfl, h1⟩))
      · exact Or.inr (listLt_cons.2 (Or.inl hxy))

theorem listLt_iff_lex {a b : List Char} : listLt a b = true ↔ List.Lex (· < ·) a b := by
  constructor
  · intro h
    induction a generalizing b with
    | nil =>
      cases b with
      | nil => cases h
      | cons y ys => exact List.Lex.nil
    | cons x xs ih =>
      cases b with
      | nil => cases h
      | cons y ys =>
        rcases listLt_cons.1 h with h1 | ⟨he, h1⟩
        · exact List.Lex.rel h1
        · subst he
          exact List.Lex.cons (ih h1)
  · intro h
    induction h with
    | nil => rfl
    | cons _ ih => exact listLt_cons.2 (Or.inr ⟨rfl, ih⟩)
    | rel h => exact listLt_cons.2 (Or.inl h)

theorem strLt_iff {s t : String} : strLt s t = true ↔ s < t := by
  rw [strLt, listLt_iff_lex, String.lt_iff_toList_lt]
  exact Iff.rfl

theorem strLt_irrefl (s : String) : strLt s s = false := listLt_irrefl _

theorem strLt_trans {a b c : String} (h1 : strLt a b = true) (h2 : strLt b c = true) :
    strLt a c = true := listLt_trans h1 h2

theorem strLt_asymm {a b : String} (h : strLt a b = true) : strLt b a = false :=
  listLt_asymm h

theorem strLt_ne {a b : String} (h : strLt a b = true) : a ≠ b := by
  intro he
  have := listLt_ne h
  exact this (by rw [he])

theorem strLt_total {a b : String} (h : a ≠ b) : strLt a b = true ∨ strLt b a = true :=
  listLt_total (fun he => h (by
    have : String.mk a.data = String.mk b.data := by rw [he]
    simpa using this))

theorem mapFind_insert_self (m : List (String × ℚ)) (k : String) (v : ℚ) :
    mapFind (mapInsert m k v) k = some v := by
  induction m with
  | nil => simp [mapInsert, mapFind]
  | cons p r ih =>
    obtain ⟨k0, v0⟩ := p
    rw [mapInsert]
    by_cases h1 : strLt k k0 = true
    · rw [if_pos h1, mapFind, if_pos rfl]
    · rw [if_neg (by simp [h1])]
      by_cases h2 : k = k0
      · rw [if_pos h2, mapFind, if_pos rfl]
      · rw [if_neg h2, mapFind, if_neg h2]
        exact ih

theorem andE {a b : Bool} (h : (a && b) = true) : a = true ∧ b = true := by
  rw [Bool.and_eq_true] at h
  exact h

theorem andI {a b : Bool} (h1 : a = true) (h2 : b = true) : (a && b) = true := by
  rw [Bool.and_eq_true]
  exact ⟨h1, h2⟩

theorem mapFind_insert_ne (m : List (String × ℚ)) (k : String) (v : ℚ) (k' : String)
    (h : k' ≠ k) : mapFind (mapInsert m k v) k' = mapFind m k' := by
  induction m with
  | nil => simp [mapInsert, mapFind, h]
  | cons p r ih =>
    obtain ⟨k0, v0⟩ := p
    rw [mapInsert]
    by_cases h1 : strLt k k0 = true
    · rw [if_pos h1, mapFind, if_neg h]
    · rw [if_neg (by simp [h1])]
      by_cases h2 : k = k0
      · subst h2
        rw [if_pos rfl]
        show mapFind ((k, v) :: r) k' = mapFind ((k, v0) :: r) k'
        rw [mapFind, mapFind, if_neg h, if_neg h]
      · rw [if_neg h2]
        show mapFind _ k' = mapFind ((k0, v0) :: r) k'
        rw [mapFind, mapFind]
        by_cases h3 : k' = k0
        · rw [if_pos h3, if_pos h3]
        · rw [if_neg h3, if_neg h3]
          exact ih

theorem mem_keys_insert (m : List (String × ℚ)) (k : String) (v : ℚ) (k' : String) :
    k' ∈ mapKeys (mapInsert m k v) ↔ k' = k ∨ k' ∈ mapKeys m := by
  induction m with
  | nil => simp [mapInsert, mapKeys]
  | cons p r ih =>
    obtain ⟨k0, v0⟩ := p
    rw [mapInsert]
    by_cases h1 : strLt k k0 = true
    · rw [if_pos h1]
      simp only [mapKeys, List.map_cons, List.mem_cons]
    · rw [if_neg (by simp [h1])]
      by_cases h2 : k = k0
      · subst h2
        rw [if_pos rfl]
        simp only [mapKeys, List.map_cons, List.mem_cons]
        tauto
      · rw [if_neg h2]
        simp only [mapKeys, List.map_cons, List.mem_cons] at ih ⊢
        tauto

theorem mapFind_none_iff (m : List (String × ℚ)) (k : String) :
    mapFind m k = none ↔ k ∉ mapKeys m := by
  induction m with
  | nil => simp [mapFind, mapKeys]
  | cons p r ih =>
    obtain ⟨k0, v0⟩ := p
    rw [mapFind]
    by_cases h : k = k0
    · subst h
      simp [mapKeys]
    · rw [if_neg h]
      simp only [mapKeys, List.map_cons, List.mem_cons] at ih ⊢
      rw [ih]
      tauto

theorem sortedB_tail {a : String × ℚ} {m : List (String × ℚ)}
    (h : mapSortedB (a :: m) = true) : mapSortedB m = true := by
  cases m with
  | nil => rfl
  | cons b r =>
    rw [mapSortedB] at h
    exact (andE h).2

theorem sortedB_head_lt : ∀ {m : List (String × ℚ)} {a : String × ℚ},
    mapSortedB (a :: m) = true → ∀ b ∈ m, strLt a.1 b.1 = true := by
  intro m
  induction m with
  | nil =>
    intro a h b hb
    cases hb
  | cons c r ih =>
    intro a h b hb
    rw [mapSortedB] at h
    rcases List.mem_cons.1 hb with he | hbr
    · rw [he]
      exact (andE h).1
    · exact strLt_trans (andE h).1 (ih (andE h).2 b hbr)

theorem sortedB_pairwise {m : List (String × ℚ)} (h : mapSortedB m = true) :
    List.Pairwise (fun a b : String × ℚ => strLt a.1 b.1 = true) m := by
  induction m with
  | nil => exact List.Pairwise.nil
  | cons a r ih => exact List.pairwise_cons.2 ⟨sortedB_head_lt h, ih (sortedB_tail h)⟩

theorem sortedB_insert {m : List (String × ℚ)} (k : String) (v : ℚ)
    (h : mapSortedB m = true) : mapSortedB (mapInsert m k v) = true := by
  induction m with
  | nil => rfl
  | cons p r ih =>
    obtain ⟨k0, v0⟩ := p
    rw [mapInsert]
    by_cases h1 : strLt k k0 = true
    · rw [if_pos h1]
      rw [mapSortedB]
      exact andI h1 h
    · rw [if_neg (by simp [h1])]
      by_cases h2 : k = k0
      · subst h2
        rw [if_pos rfl]
        cases r with
        | nil => rfl
        | cons c r' =>
          rw [mapSortedB] at h ⊢
          exact h
      · rw [if_neg h2]
        have hk0k : strLt k0 k = true := by
          rcases strLt_total (fun he => h2 he.symm) with ht | ht
          · exact ht
          · exact absurd ht h1
        have ihr := ih (sortedB_tail h)
        cases r with
        | nil =>
          show mapSortedB [(k0, v0), (k, v)] = true
          rw [mapSortedB]
          exact andI hk0k rfl
        | cons c r' =>
          obtain ⟨k1, v1⟩ := c
          have hk01 : strLt k0 k1 = true := by
            rw [mapSortedB] at h
            exact (andE h).1
          rw [mapInsert] at ihr ⊢
          by_cases h3 : strLt k k1 = true
          · rw [if_pos h3] at ihr ⊢
            rw [mapSortedB]
            exact andI hk0k ihr
          · rw [if_neg (by simp [h3])] at ihr ⊢
            by_cases h4 : k = k1
            · rw [if_pos h4] at ihr ⊢
              rw [mapSortedB]
              exact andI (by rw [h4]; exact hk01) ihr
            · rw [if_neg h4] at ihr ⊢
              rw [mapSortedB]
              exact andI hk01 ihr

theorem mapInsert_append {m : List (String × ℚ)} {k : String} (v : ℚ)
    (h : ∀ p ∈ m, strLt p.1 k = true) : mapInsert m k v = m ++ [(k, v)] := by
  induction m with
  | nil => rfl
  | cons p r ih =>
    obtain ⟨k0, v0⟩ := p
    have h0 : strLt k0 k = true := h (k0, v0) (List.mem_cons_self _ _)
    rw [mapInsert, if_neg (by rw [strLt_asymm h0]; simp),
      if_neg (fun he => by rw [he, strLt_irrefl] at h0; cases h0),
      ih (fun p hp => h p (List.mem_cons_of_mem _ hp))]
    rfl

theorem mapFind_of_mem {m : List (String × ℚ)} (h : mapSortedB m = true) {k : String} {v : ℚ}
    (hm : (k, v) ∈ m) : mapFind m k = some v := by
  induction m with
  | nil => cases hm
  | cons p r ih =>
    obtain ⟨k0, v0⟩ := p
    rcases List.mem_cons.1 hm with he | hr
    · rw [← he, mapFind, if_pos rfl]
    · have hlt : strLt k0 k = true := by
        have hp := sortedB_pairwise h
        exact (List.pairwise_cons.1 hp).1 (k, v) hr
      rw [mapFind, if_neg (fun he2 => by rw [he2, strLt_irrefl] at hlt; cases hlt)]
      exact ih (sortedB_tail h) hr

theorem mapFindD_addTo (m : List (String × ℚ)) (k : String) (v : ℚ) (k' : String) :
    mapFindD (mapAddTo m k v) k' = if k' = k then mapFindD m k + v else mapFindD m k' := by
  rw [mapAddTo]
  by_cases h : k' = k
  · subst h
    rw [if_pos rfl, mapFindD, mapFind_insert_self, qAdd_eq]
    rfl
  · rw [if_neg h, mapFindD, mapFind_insert_ne _ _ _ _ h]
    rfl

theorem keySum_cons (sel : Transaction → Option (String × ℚ)) (t : Transaction)
    (ts : List Transaction) (k : String) :
    keySum sel (t :: ts) k =
      (match sel t with
       | some kv => if kv.1 = k then kv.2 else 0
       | none => 0) + keySum sel ts k := by
  rw [keySum, List.filterMap_cons]
  cases h : sel t with
  | none =>
    rw [keySum]
    simp
  | some kv =>
    by_cases hk : kv.1 = k
    · rw [List.filter_cons, if_pos (by simpa using hk)]
      simp [keySum, hk]
    · rw [List.filter_cons, if_neg (by simpa using hk)]
      simp [keySum, hk]

theorem accumBy_findD (sel : Transaction → Option (String × ℚ)) :
    ∀ (ts : List Transaction) (m : List (String × ℚ)) (k : String),
      mapFindD (accumBy sel m ts) k = mapFindD m k + keySum sel ts k := by
  intro ts
  induction ts with
  | nil =>
    intro m k
    simp [accumBy, keySum]
  | cons t ts ih =>
    intro m k
    have hstep : accumBy sel m (t :: ts) = accumBy sel
        (match sel t with
         | some kv => mapAddTo m kv.1 kv.2
         | none => m) ts := by
      rw [accumBy, List.foldl_cons]
      rfl
    rw [hstep, ih, keySum_cons]
    cases h : sel t with
    | none => simp
    | some kv =>
      rw [mapFindD_addTo]
      by_cases hk : k = kv.1
      · subst hk
        simp only [eq_self_iff_true, if_true]
        ring
      · have hk2 : ¬(kv.1 = k) := fun he => hk he.symm
        simp only [if_neg hk, if_neg hk2]
        simp

theorem accumBy_sorted (sel : Transaction → Option (String × ℚ)) :
    ∀ (ts : List Transaction) (m : List (String × ℚ)), mapSortedB m = true →
      mapSortedB (accumBy sel m ts) = true := by
  intro ts
  induction ts with
  | nil =>
    intro m h
    exact h
  | cons t ts ih =>
    intro m h
    have hstep : accumBy sel m (t :: ts) = accumBy sel
        (match sel t with
         | some kv => mapAddTo m kv.1 kv.2
         | none => m) ts := by
      rw [accumBy, List.foldl_cons]
      rfl
    rw [hstep]
    cases hsel : sel t with
    | none => exact ih m h
    | some kv => exact ih _ (sortedB_insert _ _ h)

theorem mem_keys_addTo (m : List (String × ℚ)) (k : String) (v : ℚ) (k' : String) :
    k' ∈ mapKeys (mapAddTo m k v) ↔ k' = k ∨ k' ∈ mapKeys m :=
  mem_keys_insert m k _ k'

theorem accumBy_keys (sel : Transaction → Option (String × ℚ)) :
    ∀ (ts : List Transaction) (m : List (String × ℚ)) (k : String),
      k ∈ mapKeys (accumBy sel m ts) ↔
        k ∈ mapKeys m ∨ k ∈ (ts.filterMap sel).map (·.1) := by
  intro ts
  induction ts with
  | nil =>
    intro m k
    simp [accumBy]
  | cons t ts ih =>
    intro m k
    have hstep : accumBy sel m (t :: ts) = accumBy sel
        (match sel t with
         | some kv => mapAddTo m kv.1 kv.2
         | none => m) ts := by
      rw [accumBy, List.foldl_cons]
      rfl
    rw [hstep, List.filterMap_cons]
    cases hsel : sel t with
    | none => exact ih m k
    | some kv =>
      rw [ih, mem_keys_addTo]
      simp only [List.map_cons, List.mem_cons]
      tauto

theorem tsStep_proj (a : TSMaps) (t : Transaction) :
    (tsStep a t).monthlyIncome =
      (match selMonthlyInc t with
       | some kv => mapAddTo a.monthlyIncome kv.1 kv.2
       | none => a.monthlyIncome) ∧
    (tsStep a t).monthlyExpense =
      (match selMonthlyExp t with
       | some kv => mapAddTo a.monthlyExpense kv.1 kv.2
       | none => a.monthlyExpense) ∧
    (tsStep a t).yearlyIncome =
      (match selYearlyInc t with
       | some kv => mapAddTo a.yearlyIncome kv.1 kv.2
       | none => a.yearlyIncome) ∧
    (tsStep a t).yearlyExpense =
      (match selYearlyExp t with
       | some kv => mapAddTo a.yearlyExpense kv.1 kv.2
       | none => a.yearlyExpense) := by
  rw [tsStep, selMonthlyInc, selMonthlyExp, selYearlyInc, selYearlyExp]
  cases h : parse_date t.date with
  | none => simp [h]
  | some p =>
    obtain ⟨y, m, d⟩ := p
    by_cases hty : t.type = 'I'
    · simp [h, hty, monthOf, yearOf]
    · simp [h, hty, monthOf, yearOf]

theorem tsMaps_proj (ts : List Transaction) :
    ∀ a : TSMaps,
      (List.foldl tsStep a ts).monthlyIncome = accumBy selMonthlyInc a.monthlyIncome ts ∧
      (List.foldl tsStep a ts).monthlyExpense = accumBy selMonthlyExp a.monthlyExpense ts ∧
      (List.foldl tsStep a ts).yearlyIncome = accumBy selYearlyInc a.yearlyIncome ts ∧
      (List.foldl tsStep a ts).yearlyExpense = accumBy selYearlyExp a.yearlyExpense ts := by
  induction ts with
  | nil =>
    intro a
    exact ⟨rfl, rfl, rfl, rfl⟩
  | cons t ts ih =>
    intro a
    obtain ⟨h1, h2, h3, h4⟩ := ih (tsStep a t)
    obtain ⟨p1, p2, p3, p4⟩ := tsStep_proj a t
    refine ⟨?_, ?_, ?_, ?_⟩
    · rw [List.foldl_cons, h1, p1, accumBy, accumBy, List.foldl_cons]
    · rw [List.foldl_cons, h2, p2, accumBy, accumBy, List.foldl_cons]
    · rw [List.foldl_cons, h3, p3, accumBy, accumBy, List.foldl_cons]
    · rw [List.foldl_cons, h4, p4, accumBy, accumBy, List.foldl_cons]

theorem tsMaps_mi (ts : List Transaction) :
    (tsMaps ts).monthlyIncome = accumBy selMonthlyInc [] ts := (tsMaps_proj ts _).1

theorem tsMaps_me (ts : List Transaction) :
    (tsMaps ts).monthlyExpense = accumBy selMonthlyExp [] ts := (tsMaps_proj ts _).2.1

theorem tsMaps_yi (ts : List Transaction) :
    (tsMaps ts).yearlyIncome = accumBy selYearlyInc [] ts := (tsMaps_proj ts _).2.2.1

theorem tsMaps_ye (ts : List Transaction) :
    (tsMaps ts).yearlyExpense = accumBy selYearlyExp [] ts := (tsMaps_proj ts _).2.2.2

theorem calcExp_eq_accum (ts : List Transaction) :
    calculateExpensesByCategory ts = accumBy selExpenseCat [] ts := by
  rw [calculateExpensesByCategory, accumBy]
  congr 1
  funext m t
  rw [selExpenseCat]
  by_cases h : t.type = 'E'
  · simp [h]
  · simp [h]

theorem keySum_if_shape (p : Transaction → Bool) (f : Transaction → String) :
    ∀ (ts : List Transaction) (k : String),
      keySum (fun t => if p t then some (f t, t.amount) else none) ts k =
        sumWhere (fun t => p t && (f t == k)) ts := by
  intro ts
  induction ts with
  | nil =>
    intro k
    rfl
  | cons t ts ih =>
    intro k
    rw [keySum_cons, ih]
    by_cases hp : p t = true
    · by_cases hf : f t = k
      · simp [sumWhere, List.filter_cons, hp, hf]
      · simp [sumWhere, List.filter_cons, hp, hf]
    · have hp2 : p t = false := by simpa using hp
      simp [sumWhere, List.filter_cons, hp2]

theorem sumWhere_congr {p q : Transaction → Bool} (h : ∀ t, p t = q t)
    (ts : List Transaction) : sumWhere p ts = sumWhere q ts := by
  rw [sumWhere, sumWhere, List.filter_congr (fun t _ => h t)]

theorem sortedB_chain_keys {m : List (String × ℚ)} (h : mapSortedB m = true) :
    List.Chain' (· < ·) (mapKeys m) := by
  induction m with
  | nil => exact List.chain'_nil
  | cons a r ih =>
    cases r with
    | nil => exact List.chain'_singleton _
    | cons b r' =>
      rw [mapSortedB] at h
      have h1 := andE h
      show List.Chain' (· < ·) (a.1 :: b.1 :: mapKeys r')
      rw [List.chain'_cons]
      exact ⟨strLt_iff.1 h1.1, ih h1.2⟩

theorem keySum_selMonthlyInc (ts : List Transaction) (k : String) :
    keySum selMonthlyInc ts k =
      sumWhere (fun t => monthOf t == some k && t.type == 'I') ts := by
  have h1 := keySum_if_shape (fun t => (parse_date t.date).isSome && t.type == 'I')
    (fun t => (monthOf t).getD "") ts k
  rw [show keySum selMonthlyInc ts k = keySum
    (fun t => if ((parse_date t.date).isSome && t.type == 'I') = true
      then some ((monthOf t).getD "", t.amount) else none) ts k from rfl, h1]
  apply sumWhere_congr
  intro t
  cases h : parse_date t.date with
  | none => simp [monthOf, h]
  | some p => simp [monthOf, h, Bool.and_comm]

theorem keySum_selMonthlyExp (ts : List Transaction) (k : String) :
    keySum selMonthlyExp ts k =
      sumWhere (fun t => monthOf t == some k && !(t.type == 'I')) ts := by
  have h1 := keySum_if_shape (fun t => (parse_date t.date).isSome && !(t.type == 'I'))
    (fun t => (monthOf t).getD "") ts k
  rw [show keySum selMonthlyExp ts k = keySum
    (fun t => if ((parse_date t.date).isSome && !(t.type == 'I')) = true
      then some ((monthOf t).getD "", t.amount) else none) ts k from rfl, h1]
  apply sumWhere_congr
  intro t
  cases h : parse_date t.date with
  | none => simp [monthOf, h]
  | some p => simp [monthOf, h, Bool.and_comm]

theorem keySum_selYearlyInc (ts : List Transaction) (k : String) :
    keySum selYearlyInc ts k =
      sumWhere (fun t => yearOf t == some k && t.type == 'I') ts := by
  have h1 := keySum_if_shape (fun t => (parse_date t.date).isSome && t.type == 'I')
    (fun t => (yearOf t).getD "") ts k
  rw [show keySum selYearlyInc ts k = keySum
    (fun t => if ((parse_date t.date).isSome && t.type == 'I') = true
      then some ((yearOf t).getD "", t.amount) else none) ts k from rfl, h1]
  apply sumWhere_congr
  intro t
  cases h : parse_date t.date with
  | none => simp [yearOf, h]
  | some p => simp [yearOf, h, Bool.and_comm]

theorem keySum_selYearlyExp (ts : List Transaction) (k : String) :
    keySum selYearlyExp ts k =
      sumWhere (fun t => yearOf t == some k && !(t.type == 'I')) ts := by
  have h1 := keySum_if_shape (fun t => (parse_date t.date).isSome && !(t.type == 'I'))
    (fun t => (yearOf t).getD "") ts k
  rw [show keySum selYearlyExp ts k = keySum
    (fun t => if ((parse_date t.date).isSome && !(t.type == 'I')) = true
      then some ((yearOf t).getD "", t.amount) else none) ts k from rfl, h1]
  apply sumWhere_congr
  intro t
  cases h : parse_date t.date with
  | none => simp [yearOf, h]
  | some p => simp [yearOf, h, Bool.and_comm]

theorem keySum_selExpenseCat (ts : List Transaction) (k : String) :
    keySum selExpenseCat ts k =
      sumWhere (fun t => t.type == 'E' && t.category == k) ts := by
  have h1 := keySum_if_shape (fun t => t.type == 'E') (fun t => t.category) ts k
  rw [show keySum selExpenseCat ts k = keySum
    (fun t => if (t.type == 'E') = true then some (t.category, t.amount) else none) ts k
    from rfl, h1]

theorem selMonthlyInc_key (t : Transaction) (k : String) :
    (∃ p, selMonthlyInc t = some p ∧ p.1 = k) ↔ monthOf t = some k ∧ t.type = 'I' := by
  rw [selMonthlyInc]
  cases h : parse_date t.date with
  | none =>
    simp [h, monthOf]
  | some p =>
    by_cases hty : t.type = 'I'
    · simp [h, hty, monthOf]
    · simp [h, hty, monthOf]

theorem selYearlyInc_key (t : Transaction) (k : String) :
    (∃ p, selYearlyInc t = some p ∧ p.1 = k) ↔ yearOf t = some k ∧ t.type = 'I' := by
  rw [selYearlyInc]
  cases h : parse_date t.date with
  | none =>
    simp [h, yearOf]
  | some p =>
    by_cases hty : t.type = 'I'
    · simp [h, hty, yearOf]
    · simp [h, hty, yearOf]

theorem mkRat_nine_ten : (mkRat 9 10 : ℚ) = 9 / 10 := by
  rw [Rat.mkRat_eq_div]
  norm_num

theorem statusOf_iff (b s : ℚ) :
    (statusOf b s = .Exceeded ↔ b < s) ∧
    (statusOf b s = .Warning ↔ ¬b < s ∧ 0 < b ∧ (9 : ℚ) / 10 ≤ s / b) ∧
    (statusOf b s = .OK ↔ ¬b < s ∧ ¬(0 < b ∧ (9 : ℚ) / 10 ≤ s / b)) := by
  rw [statusOf]
  by_cases h1 : b < s
  · rw [if_pos (qLtB_eq b s |>.2 h1)]
    refine ⟨by simp [h1], by simp [h1], by simp [h1]⟩
  · rw [if_neg (fun hc => h1 ((qLtB_eq b s).1 hc))]
    have h1' : s ≤ b := le_of_not_lt h1
    by_cases h2 : 0 < b ∧ (9 : ℚ) / 10 ≤ s / b
    · rw [if_pos (andI ((qLtB_eq 0 b).2 h2.1)
        ((qLeB_eq _ _).2 (by rw [qDiv_eq, mkRat_nine_ten]; exact h2.2)))]
      refine ⟨by simp [h1], by simp [h1', h2], by simp [h2]⟩
    · rw [if_neg (fun hc => h2 ⟨(qLtB_eq 0 b).1 (andE hc).1,
        by
          have := (qLeB_eq _ _).1 (andE hc).2
          rwa [qDiv_eq, mkRat_nine_ten] at this⟩)]
      refine ⟨by simp [h1], by simp [h2], by simp [h1', h2]⟩

theorem summaryTotals_acc (ts : List Transaction) :
    ∀ acc : ℚ × ℚ,
      ts.foldl
        (fun p t =>
          if t.type = 'I' then (qAdd p.1 t.amount, p.2)
          else if t.type = 'E' then (p.1, qAdd p.2 t.amount) else p) acc =
      (acc.1 + sumWhere (fun t => t.type == 'I') ts,
       acc.2 + sumWhere (fun t => t.type == 'E') ts) := by
  induction ts with
  | nil =>
    intro acc
    simp [sumWhere]
  | cons t ts ih =>
    intro acc
    rw [List.foldl_cons, ih]
    by_cases h1 : t.type = 'I'
    · simp [h1, sumWhere, List.filter_cons, qAdd_eq]
      ring
    · by_cases h2 : t.type = 'E'
      · simp [h1, h2, sumWhere, List.filter_cons, qAdd_eq]
        ring
      · simp [h1, h2, sumWhere, List.filter_cons]

theorem summaryTotals_eq (ts : List Transaction) :
    summaryTotals ts = (sumWhere (fun t => t.type == 'I') ts,
      sumWhere (fun t => t.type == 'E') ts) := by
  rw [summaryTotals, summaryTotals_acc]
  simp

theorem dropWhile_cons_neg {p : Char → Bool} {c : Char} {l : List Char} (h : p c = false) :
    (c :: l).dropWhile p = c :: l := by
  simp [List.dropWhile, h]

theorem takeWhile_cons_neg {p : Char → Bool} {c : Char} {l : List Char} (h : p c = false) :
    (c :: l).takeWhile p = [] := by
  simp [List.takeWhile, h]

theorem takeWhile_all {p : Char → Bool} :
    ∀ {l : List Char}, (∀ c ∈ l, p c = true) → l.takeWhile p = l := by
  intro l
  induction l with
  | nil =>
    intro _
    rfl
  | cons c cs ih =>
    intro h
    rw [List.takeWhile_cons, if_pos (h c (List.mem_cons_self _ _)),
      ih (fun x hx => h x (List.mem_cons_of_mem _ hx))]

theorem dropWhile_all {p : Char → Bool} :
    ∀ {l : List Char}, (∀ c ∈ l, p c = true) → l.dropWhile p = [] := by
  intro l
  induction l with
  | nil =>
    intro _
    rfl
  | cons c cs ih =>
    intro h
    rw [List.dropWhile_cons, if_pos (h c (List.mem_cons_self _ _))]
    exact ih (fun x hx => h x (List.mem_cons_of_mem _ hx))

theorem takeWhile_stop {p : Char → Bool} {ds rest : List Char} (hd : ∀ c ∈ ds, p c = true)
    (hr : p (rest.headD ' ') = false → rest.headD ' ' ≠ ' ' ∨ rest = [] ∨ p ' ' = false)
    (hr2 : p (rest.headD ' ') = false) :
    (ds ++ rest).takeWhile p = ds ∧ (ds ++ rest).dropWhile p = rest := by
  rw [List.takeWhile_append_of_pos hd, List.dropWhile_append_of_pos hd]
  cases rest with
  | nil => simp
  | cons c cs =>
    simp only [List.headD_cons] at hr2
    exact ⟨by rw [takeWhile_cons_neg hr2, List.append_nil], dropWhile_cons_neg hr2⟩

theorem readNat_exact {ds rest : List Char} (hne : ds ≠ [])
    (hd : ∀ c ∈ ds, isDigitC c = true) (hr : isDigitC (rest.headD ' ') = false) :
    readNat (ds ++ rest) = some (natOfDigits ds, rest) := by
  obtain ⟨ht, hdp⟩ := takeWhile_stop hd (fun _ => Or.inr (Or.inr (by decide))) hr
  rw [readNat]
  simp only [ht, hdp]
  rw [if_neg (by simpa [List.isEmpty_iff] using hne)]

theorem readInt_intDigits (i : Int) (rest : List Char)
    (hr : isDigitC (rest.headD ' ') = false) :
    readInt (intDigits i ++ rest) = some (i, rest) := by
  by_cases hi : i < 0
  · rw [intDigits, if_pos hi]
    rw [readInt]
    have h1 : (('-' :: (natDigits i.natAbs ++ rest)).dropWhile isSpaceCpp) =
        '-' :: (natDigits i.natAbs ++ rest) := dropWhile_cons_neg (by decide)
    simp only [List.cons_append, h1, List.headD_cons, List.tail_cons]
    rw [if_pos (Or.inl trivial), readNat_exact (natDigits_ne_nil _) (natDigits_all_digit _) hr]
    simp only [if_true, natOfDigits_natDigits, Option.some.injEq, Prod.mk.injEq]
    exact ⟨by omega, trivial⟩
  · rw [intDigits, if_neg hi]
    rw [readInt]
    obtain ⟨d, nd, hnd⟩ : ∃ d nd, natDigits i.natAbs = d :: nd := by
      cases h : natDigits i.natAbs with
      | nil => exact absurd h (natDigits_ne_nil _)
      | cons d nd => exact ⟨d, nd, rfl⟩
    have hdd : isDigitC d = true := by
      have := natDigits_all_digit i.natAbs
      rw [hnd] at this
      exact this d (List.mem_cons_self d nd)
    have h1 : ((natDigits i.natAbs ++ rest).dropWhile isSpaceCpp) =
        natDigits i.natAbs ++ rest := by
      rw [hnd, List.cons_append]
      exact dropWhile_cons_neg (not_space_of_digit hdd)
    simp only [h1]
    have hhead : (natDigits i.natAbs ++ rest).headD ' ' = d := by
      rw [hnd]
      rfl
    rw [hhead]
    have hne1 : d ≠ '-' := digit_ne hdd (by decide)
    have hne2 : d ≠ '+' := digit_ne hdd (by decide)
    rw [if_neg (by simp [hne1, hne2]), readNat_exact (natDigits_ne_nil _)
      (natDigits_all_digit _) hr]
    simp only [Option.some.injEq, natOfDigits_natDigits, Prod.mk.injEq, if_neg hne1]
    exact ⟨by omega, trivial⟩

theorem stofCore_decimal (sgnNeg : Bool) (W F : List Char) (hWne : W ≠ [])
    (hW : ∀ c ∈ W, isDigitC c = true) (hF : ∀ c ∈ F, isDigitC c = true) :
    stofCore ((if sgnNeg then ['-'] else []) ++ W ++ '.' :: F) =
      some (qOfSci ((if sgnNeg then -1 else 1) * (natOfDigits W * 10 ^ F.length + natOfDigits F))
        (-(F.length : Int))) := by
  obtain ⟨d, W', hWd⟩ : ∃ d W', W = d :: W' := by
    cases W with
    | nil => exact absurd rfl hWne
    | cons d W' => exact ⟨d, W', rfl⟩
  have hdd : isDigitC d = true := hW d (by rw [hWd]; exact List.mem_cons_self d W')
  have hsplit1 : (W ++ '.' :: F).takeWhile isDigitC = W ∧
      (W ++ '.' :: F).dropWhile isDigitC = '.' :: F :=
    takeWhile_stop hW (fun _ => Or.inr (Or.inr (by decide)))
      (by rw [List.headD_cons]; decide)
  have hds2 : F.takeWhile isDigitC = F := takeWhile_all hF
  have hcs4 : F.dropWhile isDigitC = [] := dropWhile_all hF
  have hWiE : W.isEmpty = false := by simpa [List.isEmpty_iff] using hWne
  have hfrac : stofFrac (if sgnNeg then -1 else 1) W ('.' :: F) =
      some (qOfSci ((if sgnNeg then -1 else 1) *
        (natOfDigits W * 10 ^ F.length + natOfDigits F)) (-(F.length : Int))) := by
    rw [stofFrac]
    simp [hds2, hcs4, hWiE, show expOf ([] : List Char) = 0 from by decide]
  have hafter : stofAfterSign (if sgnNeg then -1 else 1) (W ++ '.' :: F) =
      some (qOfSci ((if sgnNeg then -1 else 1) *
        (natOfDigits W * 10 ^ F.length + natOfDigits F)) (-(F.length : Int))) := by
    rw [stofAfterSign, hsplit1.1, hsplit1.2, hfrac]
  cases sgnNeg with
  | true =>
    have hl : ((['-'] ++ W ++ '.' :: F) : List Char) = '-' :: (W ++ '.' :: F) := by simp
    rw [if_pos rfl, hl, stofCore]
    have h1 : ('-' :: (W ++ '.' :: F)).dropWhile isSpaceCpp = '-' :: (W ++ '.' :: F) :=
      dropWhile_cons_neg (by decide)
    rw [h1]
    have hsgn : stofSign ('-' :: (W ++ '.' :: F)) = (-1, W ++ '.' :: F) := by
      rw [stofSign]
      simp
    rw [hsgn]
    simpa using hafter
  | false =>
    have hl : (((if (false : Bool) then ['-'] else []) ++ W ++ '.' :: F) : List Char) =
        d :: (W' ++ '.' :: F) := by simp [hWd]
    rw [hl, stofCore]
    have h1 : (d :: (W' ++ '.' :: F)).dropWhile isSpaceCpp = d :: (W' ++ '.' :: F) :=
      dropWhile_cons_neg (not_space_of_digit hdd)
    rw [h1]
    have hne1 : d ≠ '-' := digit_ne hdd (by decide)
    have hne2 : d ≠ '+' := digit_ne hdd (by decide)
    have hsgn : stofSign (d :: (W' ++ '.' :: F)) = (1, d :: (W' ++ '.' :: F)) := by
      rw [stofSign]
      simp [hne1, hne2]
    rw [hsgn]
    have hback : d :: (W' ++ '.' :: F) = W ++ '.' :: F := by rw [hWd]; rfl
    show stofAfterSign 1 (d :: (W' ++ '.' :: F)) = _
    rw [hback]
    simpa using hafter

theorem padDigits_len {k n : Nat} (hk : k ≠ 0) (hn : n < 10 ^ k) :
    (padDigits k n).length = k := by
  rw [padDigits, List.length_append, List.length_replicate]
  have := natDigits_len_le n k (by omega) hn
  omega

theorem padDigits_val (k n : Nat) : natOfDigits (padDigits k n) = n := by
  rw [padDigits, natOfDigits_append, natOfDigits_replicate_zero]
  simp [natOfDigits_natDigits]

theorem padDigits_all_digit (k n : Nat) : ∀ c ∈ padDigits k n, isDigitC c = true := by
  intro c hc
  rcases List.mem_append.1 hc with h1 | h2
  · rw [List.eq_of_mem_replicate h1]
    decide
  · exact natDigits_all_digit _ c h2

theorem stofCore_printQChars {q : ℚ} (h : decimalRep q = true) :
    stofCore (printQChars q) = some q := by
  have hk0 : q.den ≠ 0 := q.den_nz
  have hkpos : 0 < q.den := Nat.pos_of_ne_zero hk0
  have hdvd : q.den ∣ 10 ^ q.den := Nat.dvd_of_mod_eq_zero (by simpa [decimalRep] using h)
  have hkc : q.den * (10 ^ q.den / q.den) = 10 ^ q.den := Nat.mul_div_cancel' hdvd
  have h10k : (0 : Nat) < 10 ^ q.den := by positivity
  have hc0 : 0 < 10 ^ q.den / q.den := Nat.div_pos (Nat.le_of_dvd h10k hdvd) hkpos
  have hqof : ∀ n : Int, n = q.num * ((10 ^ q.den / q.den : Nat) : Int) →
      qOfSci n (-(q.den : Int)) = q := by
    intro n hn
    obtain ⟨C, hCdef⟩ : ∃ C : ℕ, 10 ^ q.den / q.den = C := ⟨_, rfl⟩
    rw [hCdef] at hn
    have hCk : q.den * C = 10 ^ q.den := by rw [← hCdef]; exact hkc
    rw [qOfSci, if_neg (by omega : ¬(0 : Int) ≤ -(q.den : Int))]
    have ht : (-(-(q.den : Int))).toNat = q.den := by omega
    rw [ht, Rat.mkRat_eq_div, hn]
    have hd : ((q.den : ℕ) : ℚ) ≠ 0 := by exact_mod_cast hk0
    have hq : (q.num : ℚ) = q * (q.den : ℚ) := by
      have h2 := Rat.num_div_den q
      rw [div_eq_iff hd] at h2
      exact h2
    push_cast
    rw [div_eq_iff (by positivity : ((10 : ℚ) ^ q.den) ≠ 0), hq, mul_assoc]
    congr 1
    exact_mod_cast congrArg (fun x : ℕ => (x : ℚ)) hCk
  have hfr : (q.num * ((10 ^ q.den / q.den : Nat) : Int)).natAbs % 10 ^ q.den < 10 ^ q.den :=
    Nat.mod_lt _ h10k
  have hlen : (padDigits q.den ((q.num * ((10 ^ q.den / q.den : Nat) : Int)).natAbs %
      10 ^ q.den)).length = q.den := padDigits_len hk0 hfr
  have hsum : ∀ M : ℕ, ((M / 10 ^ q.den : ℕ) : ℤ) * (10 : ℤ) ^ q.den +
      ((M % 10 ^ q.den : ℕ) : ℤ) = (M : ℤ) := by
    intro M
    exact_mod_cast congrArg (fun x : ℕ => (x : ℤ)) (Nat.div_add_mod' M (10 ^ q.den))
  by_cases hqn : q.num < 0
  · have hmneg : q.num * ((10 ^ q.den / q.den : Nat) : Int) < 0 :=
      mul_neg_of_neg_of_pos hqn (by exact_mod_cast hc0)
    have hpq : printQChars q = (if (true : Bool) then ['-'] else []) ++
        natDigits ((q.num * ((10 ^ q.den / q.den : Nat) : Int)).natAbs / 10 ^ q.den) ++
        '.' :: padDigits q.den ((q.num * ((10 ^ q.den / q.den : Nat) : Int)).natAbs %
          10 ^ q.den) := by
      rw [printQChars]
      simp only [if_pos hqn, if_true]
    rw [hpq, stofCore_decimal true _ _ (natDigits_ne_nil _) (natDigits_all_digit _)
      (padDigits_all_digit _ _), hlen, natOfDigits_natDigits, padDigits_val]
    refine congrArg some ?_
    rw [show ((if (true : Bool) then (-1 : ℤ) else 1)) = -1 from rfl, hsum]
    exact hqof _ (by omega)
  · have hmpos : 0 ≤ q.num * ((10 ^ q.den / q.den : Nat) : Int) :=
      mul_nonneg (by omega) (by positivity)
    have hpq : printQChars q = (if (false : Bool) then ['-'] else []) ++
        natDigits ((q.num * ((10 ^ q.den / q.den : Nat) : Int)).natAbs / 10 ^ q.den) ++
        '.' :: padDigits q.den ((q.num * ((10 ^ q.den / q.den : Nat) : Int)).natAbs %
          10 ^ q.den) := by
      rw [printQChars]
      simp only [if_neg hqn]
      rfl
    rw [hpq, stofCore_decimal false _ _ (natDigits_ne_nil _) (natDigits_all_digit _)
      (padDigits_all_digit _ _), hlen, natOfDigits_natDigits, padDigits_val]
    refine congrArg some ?_
    rw [show ((if (false : Bool) then (-1 : ℤ) else 1)) = 1 from rfl, hsum]
    exact hqof _ (by omega)

theorem stoiEmb_intToStr (i : Int) : stoiEmb (intToStr i) = some i := by
  rw [stoiEmb, intToStr]
  show ((readInt (intDigits i)).map _) = _
  have := readInt_intDigits i [] (by decide)
  rw [List.append_nil] at this
  rw [this]
  rfl


/-- C4: for every profile, the budget report iterates exactly the
categories present in the budget map (in map order); for each entry the
budget shown is the map's ceiling, `spent` is the sum of the expense
(`'E'`) amounts of that category over the profile's transactions (0 when
there are none), and the status is `Exceeded` when `spent > budget`,
`Warning` when not `Exceeded`, `budget > 0` and `spent / budget ≥ 0.9`,
and `OK` otherwise. -/
theorem budgetReport_spec (u : UserProfile) :
    (budgetRows u).map BudgetRow.category = u.budgetPerCategory.map (·.1) ∧
    ∀ i kv, u.budgetPerCategory.get? i = some kv →
      ∃ r, (budgetRows u).get? i = some r ∧ r.category = kv.1 ∧ r.budget = kv.2 ∧
        r.spent = sumWhere (fun t => t.type == 'E' && t.category == kv.1) u.transactions ∧
        (r.status = .Exceeded ↔ r.budget < r.spent) ∧
        (r.status = .Warning ↔
          ¬r.budget < r.spent ∧ 0 < r.budget ∧ (9 : ℚ) / 10 ≤ r.spent / r.budget) ∧
        (r.status = .OK ↔
          ¬r.budget < r.spent ∧ ¬(0 < r.budget ∧ (9 : ℚ) / 10 ≤ r.spent / r.budget)) := by
  constructor
  · rw [budgetRows, List.map_map]
    rfl
  · intro i kv hkv
    have hspent : mapFindD (calculateExpensesByCategory u.transactions) kv.1 =
        sumWhere (fun t => t.type == 'E' && t.category == kv.1) u.transactions := by
      rw [calcExp_eq_accum, accumBy_findD]
      rw [show mapFindD [] kv.1 = 0 from rfl, zero_add, keySum_selExpenseCat]
    refine ⟨⟨kv.1, kv.2, mapFindD (calculateExpensesByCategory u.transactions) kv.1,
      statusOf kv.2 (mapFindD (calculateExpensesByCategory u.transactions) kv.1)⟩,
      ?_, rfl, rfl, hspent, ?_, ?_, ?_⟩
    · rw [budgetRows, List.get?_map, hkv]
      rfl
    · exact (statusOf_iff kv.2 _).1
    · exact (statusOf_iff kv.2 _).2.1
    · exact (statusOf_iff kv.2 _).2.2

/-- Witness for C4: the spec's §8 example — budget 20, spent 18. -/
theorem budgetReport_spec_witness :
    ∃ r, (budgetRows exC4).get? 0 = some r ∧ r.category = "Food" ∧ r.budget = 20 ∧
      r.spent = sumWhere (fun t => t.type == 'E' && t.category == "Food") exC4.transactions ∧
      (r.status = .Exceeded ↔ r.budget < r.spent) ∧
      (r.status = .Warning ↔
        ¬r.budget < r.spent ∧ 0 < r.budget ∧ (9 : ℚ) / 10 ≤ r.spent / r.budget) ∧
      (r.status = .OK ↔
        ¬r.budget < r.spent ∧ ¬(0 < r.budget ∧ (9 : ℚ) / 10 ≤ r.spent / r.budget)) :=
  (budgetReport_spec exC4).2 0 ("Food", 20) (by decide)

/-- C9: the income/expense summary classifies only kind `'I'` as income
and only `'E'` as expense (anything else is in neither total), while the
time-series accumulation treats every kind other than `'I'` as expense;
a transaction with a malformed kind such as `'X'` therefore contributes
its amount to the time-series expense bucket but to neither summary
total. -/
theorem summary_vs_timeseries_kinds (cat ds : String) (a : ℚ) (k : Char) (i : Int)
    (h1 : k ≠ 'I') (h2 : k ≠ 'E') :
    (∀ ts, summaryTotals ts = (sumWhere (fun t => t.type == 'I') ts,
      sumWhere (fun t => t.type == 'E') ts)) ∧
    summaryTotals [⟨"2024-05-01", cat, ds, a, k, i⟩] = (0, 0) ∧
    (tsMaps [⟨"2024-05-01", cat, ds, a, k, i⟩]).monthlyIncome = [] ∧
    mapFindD (tsMaps [⟨"2024-05-01", cat, ds, a, k, i⟩]).monthlyExpense "2024-05" = a := by
  have hp : parse_date "2024-05-01" = some (2024, 5, 1) := by decide
  have hk : monthKey 2024 5 = "2024-05" := by decide
  refine ⟨summaryTotals_eq, ?_, ?_, ?_⟩
  · simp [summaryTotals, h1, h2]
  · simp [tsMaps, tsStep, hp, h1]
  · simp [tsMaps, tsStep, hp, h1, hk, mapAddTo, mapInsert, mapFindD, mapFind, qAdd_eq]

/-- Witness for C9: a concrete `'X'`-kind transaction with amount 5. -/
theorem summary_vs_timeseries_kinds_witness :
    summaryTotals [⟨"2024-05-01", "Misc", "d", 5, 'X', 1⟩] = (0, 0) ∧
    mapFindD (tsMaps [⟨"2024-05-01", "Misc", "d", 5, 'X', 1⟩]).monthlyExpense "2024-05" = 5 :=
  ⟨(summary_vs_timeseries_kinds "Misc" "d" 5 'X' 1 (by decide) (by decide)).2.1,
   (summary_vs_timeseries_kinds "Misc" "d" 5 'X' 1 (by decide) (by decide)).2.2.2⟩


theorem tsRows_mem {incM expM : List (String × ℚ)} {r : TSRow} (h : r ∈ tsRows incM expM) :
    ∃ kv ∈ incM, r = ⟨kv.1, kv.2, mapFindD expM kv.1, qSub kv.2 (mapFindD expM kv.1)⟩ := by
  rw [tsRows] at h
  obtain ⟨kv, hkv, he⟩ := List.mem_map.1 h
  exact ⟨kv, hkv, he.symm⟩

theorem monthlyIncome_findD (ts : List Transaction) (k : String) :
    mapFindD (tsMaps ts).monthlyIncome k =
      sumWhere (fun t => monthOf t == some k && t.type == 'I') ts := by
  rw [tsMaps_mi, accumBy_findD, show mapFindD [] k = 0 from rfl, zero_add,
    keySum_selMonthlyInc]

theorem monthlyExpense_findD (ts : List Transaction) (k : String) :
    mapFindD (tsMaps ts).monthlyExpense k =
      sumWhere (fun t => monthOf t == some k && !(t.type == 'I')) ts := by
  rw [tsMaps_me, accumBy_findD, show mapFindD [] k = 0 from rfl, zero_add,
    keySum_selMonthlyExp]

theorem yearlyIncome_findD (ts : List Transaction) (k : String) :
    mapFindD (tsMaps ts).yearlyIncome k =
      sumWhere (fun t => yearOf t == some k && t.type == 'I') ts := by
  rw [tsMaps_yi, accumBy_findD, show mapFindD [] k = 0 from rfl, zero_add,
    keySum_selYearlyInc]

theorem yearlyExpense_findD (ts : List Transaction) (k : String) :
    mapFindD (tsMaps ts).yearlyExpense k =
      sumWhere (fun t => yearOf t == some k && !(t.type == 'I')) ts := by
  rw [tsMaps_ye, accumBy_findD, show mapFindD [] k = 0 from rfl, zero_add,
    keySum_selYearlyExp]

/-- C3 (amended): for every transaction list, the time-series
computation accumulates the amounts of the transactions whose dates
parse (unparseable dates contribute nowhere) into monthly (`YYYY-MM`,
zero-padded month) and yearly (`YYYY`) buckets; the emitted rows are
sorted strictly ascending by key, BUT one row is emitted only per key of
the *income* map — a key with only expense accumulations is omitted.
For every emitted row, `income` and `expense` are the bucket sums
(`expense` 0 when none) and `net = income − expense`. -/
theorem timeSeries_rows_spec (ts : List Transaction) :
    List.Chain' (· < ·) ((monthlyRows ts).map TSRow.key) ∧
    (∀ k : String, k ∈ (monthlyRows ts).map TSRow.key ↔
      ∃ t ∈ ts, monthOf t = some k ∧ t.type = 'I') ∧
    (∀ r ∈ monthlyRows ts,
      r.income = sumWhere (fun t => monthOf t == some r.key && t.type == 'I') ts ∧
      r.expense = sumWhere (fun t => monthOf t == some r.key && !(t.type == 'I')) ts ∧
      r.net = r.income - r.expense) ∧
    List.Chain' (· < ·) ((yearlyRows ts).map TSRow.key) ∧
    (∀ k : String, k ∈ (yearlyRows ts).map TSRow.key ↔
      ∃ t ∈ ts, yearOf t = some k ∧ t.type = 'I') ∧
    (∀ r ∈ yearlyRows ts,
      r.income = sumWhere (fun t => yearOf t == some r.key && t.type == 'I') ts ∧
      r.expense = sumWhere (fun t => yearOf t == some r.key && !(t.type == 'I')) ts ∧
      r.net = r.income - r.expense) := by
  have hsortM : mapSortedB (tsMaps ts).monthlyIncome = true := by
    rw [tsMaps_mi]
    exact accumBy_sorted _ ts [] rfl
  have hsortY : mapSortedB (tsMaps ts).yearlyIncome = true := by
    rw [tsMaps_yi]
    exact accumBy_sorted _ ts [] rfl
  have hkeysM : (monthlyRows ts).map TSRow.key = mapKeys (tsMaps ts).monthlyIncome := by
    rw [monthlyRows, tsRows, List.map_map]
    rfl
  have hkeysY : (yearlyRows ts).map TSRow.key = mapKeys (tsMaps ts).yearlyIncome := by
    rw [yearlyRows, tsRows, List.map_map]
    rfl
  refine ⟨?_, ?_, ?_, ?_, ?_, ?_⟩
  · rw [hkeysM]
    exact sortedB_chain_keys hsortM
  · intro k
    rw [hkeysM, tsMaps_mi, accumBy_keys]
    simp only [mapKeys, List.map_nil, List.not_mem_nil, false_or, List.mem_map,
      List.mem_filterMap]
    constructor
    · rintro ⟨p, ⟨t, ht, hsel⟩, hpk⟩
      exact ⟨t, ht, (selMonthlyInc_key t k).1 ⟨p, hsel, hpk⟩⟩
    · rintro ⟨t, ht, h2⟩
      obtain ⟨p, hsel, hpk⟩ := (selMonthlyInc_key t k).2 h2
      exact ⟨p, ⟨t, ht, hsel⟩, hpk⟩
  · intro r hr
    obtain ⟨kv, hkv, he⟩ := tsRows_mem hr
    have hinc : r.income = kv.2 := by rw [he]
    have hkey : r.key = kv.1 := by rw [he]
    have hfind : mapFindD (tsMaps ts).monthlyIncome kv.1 = kv.2 := by
      rw [mapFindD, mapFind_of_mem hsortM (by
        have : (kv.1, kv.2) = kv := rfl
        rw [this]
        exact hkv)]
      rfl
    refine ⟨?_, ?_, ?_⟩
    · rw [hinc, hkey, ← monthlyIncome_findD, hfind]
    · rw [hkey, ← monthlyExpense_findD]
      rw [he]
    · rw [he]
      show qSub kv.2 _ = _
      rw [qSub_eq]
  · rw [hkeysY]
    exact sortedB_chain_keys hsortY
  · intro k
    rw [hkeysY, tsMaps_yi, accumBy_keys]
    simp only [mapKeys, List.map_nil, List.not_mem_nil, false_or, List.mem_map,
      List.mem_filterMap]
    constructor
    · rintro ⟨p, ⟨t, ht, hsel⟩, hpk⟩
      exact ⟨t, ht, (selYearlyInc_key t k).1 ⟨p, hsel, hpk⟩⟩
    · rintro ⟨t, ht, h2⟩
      obtain ⟨p, hsel, hpk⟩ := (selYearlyInc_key t k).2 h2
      exact ⟨p, ⟨t, ht, hsel⟩, hpk⟩
  · intro r hr
    obtain ⟨kv, hkv, he⟩ := tsRows_mem hr
    have hinc : r.income = kv.2 := by rw [he]
    have hkey : r.key = kv.1 := by rw [he]
    have hfind : mapFindD (tsMaps ts).yearlyIncome kv.1 = kv.2 := by
      rw [mapFindD, mapFind_of_mem hsortY (by
        have : (kv.1, kv.2) = kv := rfl
        rw [this]
        exact hkv)]
      rfl
    refine ⟨?_, ?_, ?_⟩
    · rw [hinc, hkey, ← yearlyIncome_findD, hfind]
    · rw [hkey, ← yearlyExpense_findD]
      rw [he]
    · rw [he]
      show qSub kv.2 _ = _
      rw [qSub_eq]

/-- Witness for C3's amended theorem at the spec's §8 example list. -/
theorem timeSeries_rows_spec_witness :
    (⟨"2024-01", 100, 40, 60⟩ : TSRow).income
        = sumWhere (fun t => monthOf t == some "2024-01" && t.type == 'I') exC3 ∧
      (⟨"2024-01", 100, 40, 60⟩ : TSRow).expense
        = sumWhere (fun t => monthOf t == some "2024-01" && !(t.type == 'I')) exC3 := by
  have h := (timeSeries_rows_spec exC3).2.2.1 ⟨"2024-01", 100, 40, 60⟩ (by decide)
  exact ⟨h.1, h.2.1⟩

/-- C3 counterexample: a month that received only an expense
accumulation produces no emitted row at all — the bucket `2024-01`
exists (its expense sum is 40) but the monthly (and yearly) output is
empty, refuting that the computation "emits the buckets". -/
theorem timeSeries_rows_counterexample :
    monthlyRows [⟨"2024-01-05", "Food", "x", 40, 'E', 1⟩] = [] ∧
    yearlyRows [⟨"2024-01-05", "Food", "x", 40, 'E', 1⟩] = [] ∧
    monthOf ⟨"2024-01-05", "Food", "x", 40, 'E', 1⟩ = some "2024-01" ∧
    mapFindD (tsMaps [⟨"2024-01-05", "Food", "x", 40, 'E', 1⟩]).monthlyExpense "2024-01"
      = 40 := by
  decide


theorem strData_append (a b : String) : (a ++ b).data = a.data ++ b.data := rfl

theorem strMk_data (s : String) : String.mk s.data = s := rfl

theorem wfStr_no_pipe {s : String} (h : wfStr s = true) : ∀ c ∈ s.data, c ≠ '|' := by
  intro c hc
  rw [wfStr, List.all_eq_true] at h
  have := h c hc
  simp at this
  exact fun he => this.1 he

theorem cppSplitAcc_nodelim {d : Char} :
    ∀ {a : List Char}, (∀ c ∈ a, c ≠ d) → ∀ acc, cppSplitAcc d acc a = [acc ++ a] := by
  intro a
  induction a with
  | nil =>
    intro h acc
    simp [cppSplitAcc]
  | cons c cs ih =>
    intro h acc
    simp only [cppSplitAcc]
    rw [if_neg (h c (List.mem_cons_self _ _)),
      ih (fun x hx => h x (List.mem_cons_of_mem _ hx)) (acc ++ [c])]
    simp

theorem cppSplitAcc_delim {d : Char} :
    ∀ {a : List Char}, (∀ c ∈ a, c ≠ d) →
      ∀ acc bs, cppSplitAcc d acc (a ++ d :: bs) = (acc ++ a) :: cppSplit d bs := by
  intro a
  induction a with
  | nil =>
    intro h acc bs
    show cppSplitAcc d acc (d :: bs) = (acc ++ []) :: cppSplit d bs
    simp only [cppSplitAcc]
    rw [if_pos trivial]
    cases bs with
    | nil => simp [cppSplit]
    | cons x xs => simp [cppSplit]
  | cons c cs ih =>
    intro h acc bs
    show cppSplitAcc d acc (c :: (cs ++ d :: bs)) = _
    simp only [cppSplitAcc]
    rw [if_neg (h c (List.mem_cons_self _ _)),
      ih (fun x hx => h x (List.mem_cons_of_mem _ hx)) (acc ++ [c]) bs]
    simp

theorem cppSplit_ne_nil_eq {d : Char} {cs : List Char} (h : cs ≠ []) :
    cppSplit d cs = cppSplitAcc d [] cs := by
  cases cs with
  | nil => exact absurd rfl h
  | cons c cs => rfl

theorem cppSplit_cons_delim {d : Char} {a bs : List Char} (h : ∀ c ∈ a, c ≠ d) :
    cppSplit d (a ++ d :: bs) = a :: cppSplit d bs := by
  rw [cppSplit_ne_nil_eq (by simp), cppSplitAcc_delim h [] bs]
  simp

theorem cppSplit_nodelim {d : Char} {a : List Char} (h : ∀ c ∈ a, c ≠ d) (hne : a ≠ []) :
    cppSplit d a = [a] := by
  rw [cppSplit_ne_nil_eq hne, cppSplitAcc_nodelim h []]
  simp

theorem tagMatch_append (t r : List Char) : tagMatch t (t ++ r) = true := by
  induction t with
  | nil => rfl
  | cons c cs ih =>
    show tagMatch (c :: cs) (c :: (cs ++ r)) = true
    rw [tagMatch]
    simp [ih]

theorem tagMatch_true_iff (t cs : List Char) : tagMatch t cs = true ↔ ∃ r, cs = t ++ r := by
  induction t generalizing cs with
  | nil => simp [tagMatch]
  | cons c ts ih =>
    cases cs with
    | nil => simp [tagMatch]
    | cons x xs =>
      rw [tagMatch]
      simp only [Bool.and_eq_true, beq_iff_eq, ih]
      constructor
      · rintro ⟨he, r, hr⟩
        exact ⟨r, by rw [he, hr]; rfl⟩
      · rintro ⟨r, hr⟩
        rw [List.cons_append] at hr
        injection hr with h1 h2
        exact ⟨h1.symm, r, h2⟩


theorem tag_user_next (r : List Char) :
    tagMatch "USER|".data ("NEXT_ID|".data ++ r) = false := rfl

theorem tag_user_bud (r : List Char) :
    tagMatch "USER|".data ("BUDGETS|".data ++ r) = false := rfl

theorem tag_user_trans (r : List Char) :
    tagMatch "USER|".data ("TRANS|".data ++ r) = false := rfl

theorem tag_next_bud (r : List Char) :
    tagMatch "NEXT_ID|".data ("BUDGETS|".data ++ r) = false := rfl

theorem tag_next_trans (r : List Char) :
    tagMatch "NEXT_ID|".data ("TRANS|".data ++ r) = false := rfl

theorem tag_bud_trans (r : List Char) :
    tagMatch "BUDGETS|".data ("TRANS|".data ++ r) = false := rfl

theorem loadAll_append (st : LoadState) (xs ys : List (List Char)) :
    loadAll st (xs ++ ys) =
      match loadAll st xs with
      | none => none
      | some st2 => loadAll st2 ys := by
  induction xs generalizing st with
  | nil => rfl
  | cons l ls ih =>
    rw [List.cons_append]
    simp only [loadAll]
    cases h : loadLineCore st l with
    | none => rfl
    | some st2 => exact ih st2

theorem loadLine_enduser (st : LoadState) :
    loadLineCore st "ENDUSER".data = some ⟨st.users ++ st.cur.toList, none⟩ := by
  rw [loadLineCore]
  rw [if_neg (by decide : ¬tagMatch "USER|".data "ENDUSER".data = true),
    if_neg (by decide : ¬tagMatch "NEXT_ID|".data "ENDUSER".data = true),
    if_neg (by decide : ¬tagMatch "BUDGETS|".data "ENDUSER".data = true),
    if_neg (by decide : ¬tagMatch "TRANS|".data "ENDUSER".data = true),
    if_pos rfl]

theorem loadLine_user (st : LoadState) (un pw : String) (hu : wfStr un = true)
    (hp : wfStr pw = true) :
    loadLineCore st ("USER|" ++ un ++ "|" ++ pw).data =
      some ⟨st.users ++ st.cur.toList, some ⟨un, pw, [], [], 1⟩⟩ := by
  have hdata : ("USER|" ++ un ++ "|" ++ pw).data =
      "USER|".data ++ (un.data ++ '|' :: pw.data) := by
    rw [strData_append, strData_append, strData_append]
    simp
  rw [loadLineCore, hdata, if_pos (tagMatch_append _ _)]
  have hsplit : cppSplit '|' ("USER|".data ++ (un.data ++ '|' :: pw.data)) =
      "USER".data :: un.data :: cppSplit '|' pw.data := by
    have h1 : ("USER|".data ++ (un.data ++ '|' :: pw.data)) =
        "USER".data ++ '|' :: (un.data ++ '|' :: pw.data) := rfl
    rw [h1, cppSplit_cons_delim (by decide), cppSplit_cons_delim (wfStr_no_pipe hu)]
  rw [hsplit]
  cases hpw : pw.data with
  | nil =>
    have hpw2 : pw = "" := by
      rw [← strMk_data pw, hpw]
    subst hpw2
    simp [cppSplit, strMk_data]
  | cons c cs =>
    rw [cppSplit_nodelim (by rw [← hpw]; exact wfStr_no_pipe hp) (by simp), ← hpw]
    simp [strMk_data]

theorem printQChars_classes {q : ℚ} :
    ∀ c ∈ printQChars q, isDigitC c = true ∨ c = '-' ∨ c = '.' := by
  intro c hc
  simp only [printQChars, List.mem_append, List.mem_cons] at hc
  rcases hc with (hs | hw) | hd | hf
  · by_cases hq : q.num < 0
    · rw [if_pos hq] at hs
      right; left
      simpa using hs
    · rw [if_neg hq] at hs
      cases hs
  · exact Or.inl (natDigits_all_digit _ c hw)
  · right; right; exact hd
  · exact Or.inl (padDigits_all_digit _ _ c hf)

theorem intDigits_classes (i : Int) : ∀ c ∈ intDigits i, isDigitC c = true ∨ c = '-' := by
  intro c hc
  rw [intDigits] at hc
  by_cases hi : i < 0
  · rw [if_pos hi] at hc
    rcases List.mem_cons.1 hc with h | h
    · exact Or.inr h
    · exact Or.inl (natDigits_all_digit _ c h)
  · rw [if_neg hi] at hc
    exact Or.inl (natDigits_all_digit _ c hc)

theorem printQChars_ne_of {q : ℚ} {d : Char} (h1 : isDigitC d = false) (h2 : d ≠ '-')
    (h3 : d ≠ '.') : ∀ c ∈ printQChars q, c ≠ d := by
  intro c hc
  rcases printQChars_classes c hc with h | h | h
  · exact digit_ne h h1
  · rw [h]; exact fun he => h2 he.symm
  · rw [h]; exact fun he => h3 he.symm

theorem intDigits_ne_of {i : Int} {d : Char} (h1 : isDigitC d = false) (h2 : d ≠ '-') :
    ∀ c ∈ intDigits i, c ≠ d := by
  intro c hc
  rcases intDigits_classes i c hc with h | h
  · exact digit_ne h h1
  · rw [h]; exact fun he => h2 he.symm

theorem wfBudgetKey_no_comma {s : String} (h : wfBudgetKey s = true) :
    ∀ c ∈ s.data, c ≠ ',' := by
  intro c hc
  rw [wfBudgetKey, List.all_eq_true] at h
  have := h c hc
  simp at this
  exact fun he => this.1 he

theorem wfBudgetKey_no_colon {s : String} (h : wfBudgetKey s = true) :
    ∀ c ∈ s.data, c ≠ ':' := by
  intro c hc
  rw [wfBudgetKey, List.all_eq_true] at h
  have := h c hc
  simp at this
  exact fun he => this.2.1 he

theorem colonSplit_split {a rest : List Char} (h : ∀ c ∈ a, c ≠ ':') :
    colonSplit (a ++ ':' :: rest) = some (a, rest) := by
  have hp : ∀ c ∈ a, (decide ¬(c = ':')) = true := fun c hc => by simp [h c hc]
  have hdw : (a ++ ':' :: rest).dropWhile (fun c => decide ¬(c = ':')) = ':' :: rest := by
    rw [List.dropWhile_append_of_pos hp]
    exact dropWhile_cons_neg (by simp)
  have htw : (a ++ ':' :: rest).takeWhile (fun c => decide ¬(c = ':')) = a := by
    rw [List.takeWhile_append_of_pos hp, takeWhile_cons_neg (by simp), List.append_nil]
  rw [colonSplit]
  simp only [hdw, htw]

theorem loadLine_nextid (us : List UserProfile) (u : UserProfile) (n : Int) :
    loadLineCore ⟨us, some u⟩ ("NEXT_ID|" ++ intToStr n).data =
      some ⟨us, some { u with next_transaction_id := n }⟩ := by
  have hdata : ("NEXT_ID|" ++ intToStr n).data = "NEXT_ID|".data ++ intDigits n := by
    rw [strData_append]
    rfl
  have hread : readInt (intDigits n) = some (n, []) := by
    have := readInt_intDigits n [] (by decide)
    rwa [List.append_nil] at this
  rw [loadLineCore, hdata, if_neg (by rw [tag_user_next]; simp), if_pos (tagMatch_append _ _)]
  simp [hread]

theorem parseBudgets_round (bs : List (String × ℚ)) :
    ∀ m : List (String × ℚ), mapSortedB (m ++ bs) = true →
      (∀ kv ∈ bs, wfBudgetKey kv.1 = true ∧ decimalRep kv.2 = true) →
      parseBudgets m (cppSplit ',' (budgetsStr bs).data) = some (m ++ bs) := by
  induction bs with
  | nil =>
    intro m _ _
    show parseBudgets m (cppSplit ',' "".data) = some (m ++ [])
    rw [List.append_nil]
    rfl
  | cons kv r ih =>
    intro m hsort hwf
    obtain ⟨k, v⟩ := kv
    have hk : wfBudgetKey k = true := (hwf (k, v) (List.mem_cons_self _ _)).1
    have hv : decimalRep v = true := (hwf (k, v) (List.mem_cons_self _ _)).2
    have hdata : (budgetsStr ((k, v) :: r)).data =
        (k.data ++ ':' :: printQChars v) ++ ',' :: (budgetsStr r).data := by
      show (k ++ ":" ++ printQ v ++ "," ++ budgetsStr r).data = _
      rw [strData_append, strData_append, strData_append]
      simp [printQ, List.append_assoc]
    have hnocomma : ∀ c ∈ k.data ++ ':' :: printQChars v, c ≠ ',' := by
      intro c hc
      rcases List.mem_append.1 hc with h | h
      · exact wfBudgetKey_no_comma hk c h
      · rcases List.mem_cons.1 h with h | h
        · rw [h]; decide
        · exact printQChars_ne_of (by decide) (by decide) (by decide) c h
    have hsplit : cppSplit ',' (budgetsStr ((k, v) :: r)).data =
        (k.data ++ ':' :: printQChars v) :: cppSplit ',' (budgetsStr r).data := by
      rw [hdata]
      exact cppSplit_cons_delim hnocomma
    have hne : (k.data ++ ':' :: printQChars v).isEmpty = false := by
      cases k.data with
      | nil => rfl
      | cons a l => rfl
    have hlt : ∀ p ∈ m, strLt p.1 k = true := by
      intro p hp
      have hpw := sortedB_pairwise hsort
      rw [List.pairwise_append] at hpw
      exact hpw.2.2 p hp (k, v) (List.mem_cons_self _ _)
    have hsort' : mapSortedB ((m ++ [(k, v)]) ++ r) = true := by
      rw [List.append_assoc]
      exact hsort
    have hrest := ih (m ++ [(k, v)]) hsort'
      (fun kv hkv => hwf kv (List.mem_cons_of_mem _ hkv))
    rw [hsplit]
    simp only [parseBudgets]
    rw [if_neg (by rw [hne]; simp)]
    simp only [colonSplit_split (wfBudgetKey_no_colon hk), stofCore_printQChars hv, strMk_data]
    rw [mapInsert_append v hlt, hrest, List.append_assoc]
    rfl

theorem loadLine_budgets (us : List UserProfile) (u : UserProfile) (bs : List (String × ℚ))
    (hcur : u.budgetPerCategory = []) (hsort : mapSortedB bs = true)
    (hwf : ∀ kv ∈ bs, wfBudgetKey kv.1 = true ∧ decimalRep kv.2 = true) :
    loadLineCore ⟨us, some u⟩ ("BUDGETS|" ++ budgetsStr bs).data =
      some ⟨us, some { u with budgetPerCategory := bs }⟩ := by
  have hdata : ("BUDGETS|" ++ budgetsStr bs).data =
      "BUDGETS|".data ++ (budgetsStr bs).data := strData_append _ _
  have hdrop : ("BUDGETS|".data ++ (budgetsStr bs).data).drop 8 = (budgetsStr bs).data := rfl
  have hpb : parseBudgets u.budgetPerCategory (cppSplit ',' (budgetsStr bs).data) =
      some bs := by
    rw [hcur]
    have := parseBudgets_round bs [] (by simpa using hsort) hwf
    simpa using this
  rw [loadLineCore, hdata, if_neg (by rw [tag_user_bud]; simp),
    if_neg (by rw [tag_next_bud]; simp), if_pos (tagMatch_append _ _)]
  simp [hdrop, hpb]

theorem loadLine_trans (us : List UserProfile) (u : UserProfile) (t : Transaction)
    (hwf : wfTrans t = true) :
    loadLineCore ⟨us, some u⟩ (transLine t).data =
      some ⟨us, some { u with transactions := u.transactions ++ [t] }⟩ := by
  obtain ⟨h5, hnl⟩ := andE hwf
  obtain ⟨h4, hpipe⟩ := andE h5
  obtain ⟨h3, hdec⟩ := andE h4
  obtain ⟨h2, hdesc⟩ := andE h3
  obtain ⟨hdate, hcat⟩ := andE h2
  have htp : t.type ≠ '|' := by simpa using hpipe
  have hdata : (transLine t).data =
      "TRANS|".data ++ (intDigits t.id ++ '|' :: (t.date.data ++ '|' :: (t.category.data ++ '|' ::
        (t.description.data ++ '|' :: (printQChars t.amount ++ '|' :: [t.type]))))) := by
    simp only [transLine, strData_append, List.append_assoc]
    rfl
  have hT : ∀ c ∈ "TRANS".data, c ≠ '|' := by decide
  have hid : ∀ c ∈ intDigits t.id, c ≠ '|' := intDigits_ne_of (by decide) (by decide)
  have hamt : ∀ c ∈ printQChars t.amount, c ≠ '|' :=
    printQChars_ne_of (by decide) (by decide) (by decide)
  have htype : ∀ c ∈ [t.type], c ≠ '|' := by
    intro c hc
    rw [List.mem_singleton] at hc
    rw [hc]
    exact htp
  have hsplit : cppSplit '|' ("TRANS|".data ++ (intDigits t.id ++ '|' :: (t.date.data ++ '|' ::
      (t.category.data ++ '|' :: (t.description.data ++ '|' ::
        (printQChars t.amount ++ '|' :: [t.type])))))) =
      ["TRANS".data, intDigits t.id, t.date.data, t.category.data, t.description.data,
        printQChars t.amount, [t.type]] := by
    have e : ("TRANS|".data ++ (intDigits t.id ++ '|' :: (t.date.data ++ '|' ::
        (t.category.data ++ '|' :: (t.description.data ++ '|' ::
          (printQChars t.amount ++ '|' :: [t.type])))))) =
        "TRANS".data ++ '|' :: (intDigits t.id ++ '|' :: (t.date.data ++ '|' ::
          (t.category.data ++ '|' :: (t.description.data ++ '|' ::
            (printQChars t.amount ++ '|' :: [t.type]))))) := rfl
    rw [e, cppSplit_cons_delim hT, cppSplit_cons_delim hid,
      cppSplit_cons_delim (wfStr_no_pipe hdate), cppSplit_cons_delim (wfStr_no_pipe hcat),
      cppSplit_cons_delim (wfStr_no_pipe hdesc), cppSplit_cons_delim hamt,
      cppSplit_nodelim htype (by simp)]
  have hread : readInt (intDigits t.id) = some (t.id, []) := by
    have := readInt_intDigits t.id [] (by decide)
    rwa [List.append_nil] at this
  have hstof : stofCore (printQChars t.amount) = some t.amount := stofCore_printQChars hdec
  have heta : (⟨t.date, t.category, t.description, t.amount, t.type, t.id⟩ : Transaction) = t :=
    rfl
  have g1 : List.getD ["TRANS".data, intDigits t.id, t.date.data, t.category.data,
      t.description.data, printQChars t.amount, [t.type]] 1 [] = intDigits t.id := rfl
  have g2 : List.getD ["TRANS".data, intDigits t.id, t.date.data, t.category.data,
      t.description.data, printQChars t.amount, [t.type]] 2 [] = t.date.data := rfl
  have g3 : List.getD ["TRANS".data, intDigits t.id, t.date.data, t.category.data,
      t.description.data, printQChars t.amount, [t.type]] 3 [] = t.category.data := rfl
  have g4 : List.getD ["TRANS".data, intDigits t.id, t.date.data, t.category.data,
      t.description.data, printQChars t.amount, [t.type]] 4 [] = t.description.data := rfl
  have g5 : List.getD ["TRANS".data, intDigits t.id, t.date.data, t.category.data,
      t.description.data, printQChars t.amount, [t.type]] 5 [] = printQChars t.amount := rfl
  have g6 : List.getD ["TRANS".data, intDigits t.id, t.date.data, t.category.data,
      t.description.data, printQChars t.amount, [t.type]] 6 [] = [t.type] := rfl
  rw [loadLineCore, hdata, if_neg (by rw [tag_user_trans]; simp),
    if_neg (by rw [tag_next_trans]; simp), if_neg (by rw [tag_bud_trans]; simp),
    if_pos (tagMatch_append _ _)]
  rw [← hdata]
  have hsplit' : cppSplit '|' (transLine t).data =
      ["TRANS".data, intDigits t.id, t.date.data, t.category.data, t.description.data,
        printQChars t.amount, [t.type]] := by
    rw [hdata]
    exact hsplit
  simp [hsplit', g1, g2, g3, g4, g5, g6, hread, hstof, strMk_data, heta]

theorem orE {a b : Bool} (h : (a || b) = true) : a = true ∨ b = true := by
  cases a
  · right
    simpa using h
  · left
    rfl

theorem loadAll_transLines (us : List UserProfile) (ts : List Transaction) :
    ∀ u : UserProfile, ts.all wfTrans = true →
      loadAll ⟨us, some u⟩ ((ts.map transLine).map String.data) =
        some ⟨us, some { u with transactions := u.transactions ++ ts }⟩ := by
  induction ts with
  | nil =>
    intro u _
    simp [loadAll]
  | cons t ts ih =>
    intro u h
    have hpair : wfTrans t = true ∧ ts.all wfTrans = true := by
      rw [List.all_cons] at h
      exact andE h
    simp only [List.map_cons, loadAll, loadLine_trans us u t hpair.1]
    rw [ih _ hpair.2]
    simp [List.append_assoc]

theorem loadAll_userLines (st : LoadState) (u : UserProfile) (h : wfProfile u = true) :
    loadAll st ((userLines u).map String.data) =
      some ⟨st.users ++ st.cur.toList ++ [u], none⟩ := by
  obtain ⟨h4, hbwf⟩ := andE h
  obtain ⟨h3, hsort⟩ := andE h4
  obtain ⟨h2, htall⟩ := andE h3
  obtain ⟨hun, hpw⟩ := andE h2
  have hwfb : ∀ kv ∈ u.budgetPerCategory, wfBudgetKey kv.1 = true ∧ decimalRep kv.2 = true := by
    intro kv hkv
    rw [List.all_eq_true] at hbwf
    exact andE (hbwf kv hkv)
  have e1 : (userLines u).map String.data =
      ("USER|" ++ u.username ++ "|" ++ u.password).data
        :: ("NEXT_ID|" ++ intToStr u.next_transaction_id).data
        :: ("BUDGETS|" ++ budgetsStr u.budgetPerCategory).data
        :: ((u.transactions.map transLine).map String.data ++ ["ENDUSER".data]) := by
    rw [userLines, List.map_cons, List.map_cons, List.map_cons, List.map_append]
    rfl
  have hb := loadLine_budgets (st.users ++ st.cur.toList)
      ⟨u.username, u.password, [], [], u.next_transaction_id⟩ u.budgetPerCategory rfl hsort hwfb
  have ht := loadAll_transLines (st.users ++ st.cur.toList) u.transactions
      ⟨u.username, u.password, [], u.budgetPerCategory, u.next_transaction_id⟩ htall
  have hend : ∀ st2 : LoadState, loadLineCore st2 (['E', 'N', 'D', 'U', 'S', 'E', 'R'] : List Char) =
      some ⟨st2.users ++ st2.cur.toList, none⟩ := fun st2 => loadLine_enduser st2
  rw [e1]
  simp only [loadAll, loadLine_user st u.username u.password hun hpw, loadLine_nextid, hb]
  rw [loadAll_append, ht]
  simp [loadAll, hend]

theorem loadAll_saveAll (users : List UserProfile) :
    users.all wfProfile = true → ∀ acc : List UserProfile,
      loadAll ⟨acc, none⟩ ((saveToFile users).map String.data) =
        some ⟨acc ++ users, none⟩ := by
  induction users with
  | nil =>
    intro _ acc
    simp [saveToFile, loadAll]
  | cons u us ih =>
    intro h acc
    have hp : wfProfile u = true ∧ us.all wfProfile = true := by
      rw [List.all_cons] at h
      exact andE h
    have e : (saveToFile (u :: us)).map String.data =
        (userLines u).map String.data ++ (saveToFile us).map String.data := by
      simp [saveToFile]
    rw [e, loadAll_append]
    rw [loadAll_userLines ⟨acc, none⟩ u hp.1]
    have e2 : ((⟨acc, none⟩ : LoadState).users ++ (⟨acc, none⟩ : LoadState).cur.toList ++ [u]) =
        acc ++ [u] := by simp
    simp only [e2]
    rw [ih hp.2 (acc ++ [u])]
    simp [List.append_assoc]

/-- C1 counterexample: the claim as stated fails for a registry whose
data contains the record separator: a transaction whose description holds
a `'|'` makes the saved `TRANS|` line split into eight fields, so the
loader drops the transaction and the round trip loses it. -/
theorem saveLoad_roundtrip_counterexample :
    loadFromFile (saveToFile
        [⟨"u", "p", [⟨"2024-01-02", "Food", "a|b", mkRat 1 1, 'E', 1⟩], [], 2⟩]) ≠
      some [⟨"u", "p", [⟨"2024-01-02", "Food", "a|b", mkRat 1 1, 'E', 1⟩], [], 2⟩] := by
  decide

/-- C1 (amended): for every profile registry whose text fields are free
of the serialization separators (`'|'` in record fields, `','`/`':'` in
budget category names, no line breaks) and whose amounts have exact
finite decimal representations, deserializing the serialized registry
reproduces it exactly: usernames, passwords, `next_transaction_id`,
budget mappings, and the full transaction lists. -/
theorem saveLoad_roundtrip (users : List UserProfile)
    (h : users.all wfProfile = true) :
    loadFromFile (saveToFile users) = some users := by
  rw [loadFromFile, loadAll_saveAll users h []]
  simp [finishLoad]

/-- Witness for `saveLoad_roundtrip` at a concrete registry. -/
theorem saveLoad_roundtrip_witness :
    ([⟨"u", "p", [⟨"2024-01-02", "Food", "ab", mkRat 3 2, 'E', 1⟩],
        [("Food", mkRat 20 1)], 2⟩] : List UserProfile).all wfProfile = true ∧
      loadFromFile (saveToFile
          [⟨"u", "p", [⟨"2024-01-02", "Food", "ab", mkRat 3 2, 'E', 1⟩],
            [("Food", mkRat 20 1)], 2⟩]) =
        some [⟨"u", "p", [⟨"2024-01-02", "Food", "ab", mkRat 3 2, 'E', 1⟩],
            [("Food", mkRat 20 1)], 2⟩] :=
  ⟨by decide, saveLoad_roundtrip _ (by decide)⟩

theorem parseBudgets_cons_none (m : List (String × ℚ)) (p : List Char) (ps : List (List Char))
    (hcs : colonSplit p = none) :
    parseBudgets m (p :: ps) = parseBudgets m ps := by
  by_cases he : p.isEmpty = true
  · simp only [parseBudgets]
    rw [if_pos he]
  · simp only [parseBudgets, hcs]
    rw [if_neg he]

theorem parseBudgets_cons_some (m : List (String × ℚ)) (p : List Char) (ps : List (List Char))
    (he : p.isEmpty = false) {cat rest : List Char} (hcs : colonSplit p = some (cat, rest)) :
    parseBudgets m (p :: ps) =
      match stofCore rest with
      | none => none
      | some v => parseBudgets (mapInsert m (String.mk cat) v) ps := by
  simp only [parseBudgets, hcs]
  rw [if_neg (by rw [he]; simp)]

theorem parseBudgets_isSome (ps : List (List Char))
    (h : ∀ p ∈ ps, p.isEmpty = false → ∀ cat rest, colonSplit p = some (cat, rest) →
      (stofCore rest).isSome = true) :
    ∀ m, (parseBudgets m ps).isSome = true := by
  induction ps with
  | nil =>
    intro m
    rfl
  | cons p ps ih =>
    intro m
    have ih2 := ih (fun q hq => h q (List.mem_cons_of_mem _ hq))
    by_cases he : p.isEmpty = true
    · have e : parseBudgets m (p :: ps) = parseBudgets m ps := by
        simp only [parseBudgets]
        rw [if_pos he]
      rw [e]
      exact ih2 m
    · cases hcs : colonSplit p with
      | none =>
        rw [parseBudgets_cons_none m p ps hcs]
        exact ih2 m
      | some pr =>
        obtain ⟨cat, rest⟩ := pr
        rw [parseBudgets_cons_some m p ps (by simpa using he) hcs]
        have hs := h p (List.mem_cons_self _ _) (by simpa using he) cat rest hcs
        cases hsf : stofCore rest with
        | none =>
          rw [hsf] at hs
          simp at hs
        | some v => exact ih2 (mapInsert m (String.mk cat) v)

theorem loadLineCore_isSome (st : LoadState) (l : List Char) (h : lineSafe l = true) :
    (loadLineCore st l).isSome = true := by
  rw [lineSafe] at h
  rw [loadLineCore]
  by_cases h1 : tagMatch "USER|".data l = true
  · rw [if_pos h1]
    rfl
  · rw [if_neg h1] at h ⊢
    by_cases h2 : tagMatch "NEXT_ID|".data l = true
    · rw [if_pos h2] at h ⊢
      cases hcur : st.cur with
      | none => rfl
      | some u =>
        cases hri : readInt (l.drop 8) with
        | none =>
          rw [hri] at h
          simp at h
        | some p => rfl
    · rw [if_neg h2] at h ⊢
      by_cases h3 : tagMatch "BUDGETS|".data l = true
      · rw [if_pos h3] at h ⊢
        cases hcur : st.cur with
        | none => rfl
        | some u =>
          have harg : ∀ p ∈ cppSplit ',' (l.drop 8), p.isEmpty = false →
              ∀ cat rest, colonSplit p = some (cat, rest) → (stofCore rest).isSome = true := by
            intro p hp hemp cat rest hcs
            rw [List.all_eq_true] at h
            have hb := h p hp
            simp only [hemp, hcs, Bool.false_or] at hb
            exact hb
          have hpb := parseBudgets_isSome (cppSplit ',' (l.drop 8)) harg u.budgetPerCategory
          cases hq : parseBudgets u.budgetPerCategory (cppSplit ',' (l.drop 8)) with
          | none =>
            rw [hq] at hpb
            simp at hpb
          | some m => simp [hq]
      · rw [if_neg h3] at h ⊢
        by_cases h4 : tagMatch "TRANS|".data l = true
        · rw [if_pos h4] at h ⊢
          cases hcur : st.cur with
          | none => rfl
          | some u =>
            by_cases h5 : (cppSplit '|' l).length = 7
            · rcases orE h with hbad | hgood
              · exact absurd h5 (of_decide_eq_true hbad)
              · obtain ⟨ha, hb⟩ := andE hgood
                cases hri : readInt ((cppSplit '|' l).getD 1 []) with
                | none =>
                  rw [hri] at ha
                  simp at ha
                | some p =>
                  cases hsf : stofCore ((cppSplit '|' l).getD 5 []) with
                  | none =>
                    rw [hsf] at hb
                    simp at hb
                  | some v =>
                    simp only [h5, hri, hsf]
                    simp
            · simp [h5]
        · rw [if_neg h4] at h ⊢
          by_cases h6 : l = "ENDUSER".data
          · rw [if_pos h6]
            rfl
          · rw [if_neg h6]
            rfl

theorem loadAll_isSome (lines : List (List Char)) :
    (∀ l ∈ lines, lineSafe l = true) → ∀ st, (loadAll st lines).isSome = true := by
  induction lines with
  | nil =>
    intro _ st
    rfl
  | cons l ls ih =>
    intro h st
    have hl := loadLineCore_isSome st l (h l (List.mem_cons_self _ _))
    simp only [loadAll]
    cases hc : loadLineCore st l with
    | none =>
      rw [hc] at hl
      simp at hl
    | some st2 => exact ih (fun q hq => h q (List.mem_cons_of_mem _ hq)) st2

/-- C5 counterexample: deserialization is not exception-free on every
input: a `NEXT_ID|` line whose payload is not a number makes the `stoi`
call throw, and nothing catches it — the embedded loader returns `none`
(the exception escapes) instead of skipping the line. -/
theorem load_no_crash_counterexample :
    loadFromFile ["USER|u|p", "NEXT_ID|abc"] = none := by
  decide

/-- C5 (amended): deserialization lets no exception escape only on
inputs whose numeric fields all parse (`lineSafe`): under that guard
every malformed record line is silently dropped and the load returns a
result.  Without the guard, an unparseable `NEXT_ID`, budget value, or
`TRANS` numeric field crashes the load (see the counterexample). -/
theorem load_no_crash (lines : List String)
    (h : ∀ l ∈ lines, lineSafe l.data = true) :
    (loadFromFile lines).isSome = true := by
  have hall : ∀ l ∈ lines.map String.data, lineSafe l = true := by
    intro l hl
    obtain ⟨s, hs, rfl⟩ := List.mem_map.1 hl
    exact h s hs
  have := loadAll_isSome (lines.map String.data) hall ⟨[], none⟩
  cases hc : loadAll ⟨[], none⟩ (lines.map String.data) with
  | none =>
    rw [hc] at this
    simp at this
  | some st =>
    rw [loadFromFile, hc]
    rfl

/-- Witness for `load_no_crash` at a concrete file. -/
theorem load_no_crash_witness :
    (∀ l ∈ (["USER|u|p", "NEXT_ID|7"] : List String), lineSafe l.data = true) ∧
      (loadFromFile ["USER|u|p", "NEXT_ID|7"]).isSome = true :=
  ⟨by decide, load_no_crash _ (by decide)⟩

theorem loadLine_trans_skip (st : LoadState) (l : List Char)
    (htag : tagMatch "TRANS|".data l = true) (hlen : (cppSplit '|' l).length ≠ 7) :
    loadLineCore st l = some st := by
  obtain ⟨r, rfl⟩ := (tagMatch_true_iff _ _).1 htag
  rw [loadLineCore, if_neg (by rw [tag_user_trans]; simp),
    if_neg (by rw [tag_next_trans]; simp), if_neg (by rw [tag_bud_trans]; simp),
    if_pos htag]
  cases hcur : st.cur with
  | none => rfl
  | some u =>
    simp
    intro hl7
    exact absurd hl7 hlen

/-- C6: a `TRANS` line with the wrong number of fields is skipped:
loading a file with such a line inserted anywhere yields exactly the
profiles of the same file without it — all subsequent well-formed lines
and profiles still load. -/
theorem loadFromFile_skips_bad_trans (pre post : List String) (bad : String)
    (htag : tagMatch "TRANS|".data bad.data = true)
    (hlen : (cppSplit '|' bad.data).length ≠ 7) :
    loadFromFile (pre ++ bad :: post) = loadFromFile (pre ++ post) := by
  rw [loadFromFile, loadFromFile, List.map_append, List.map_append, List.map_cons,
    loadAll_append, loadAll_append]
  cases hc : loadAll ⟨[], none⟩ (pre.map String.data) with
  | none => rfl
  | some st => simp only [loadAll, loadLine_trans_skip st bad.data htag hlen]

theorem eraseFirst_subset (p : Transaction → Bool) :
    ∀ ts : List Transaction, ∀ t ∈ eraseFirst p ts, t ∈ ts := by
  intro ts
  induction ts with
  | nil =>
    intro t ht
    cases ht
  | cons a ts ih =>
    intro t ht
    rw [eraseFirst] at ht
    by_cases hp : p a = true
    · rw [if_pos hp] at ht
      exact List.mem_cons_of_mem _ ht
    · rw [if_neg hp] at ht
      rcases List.mem_cons.1 ht with h | h
      · rw [h]
        exact List.mem_cons_self _ _
      · exact List.mem_cons_of_mem _ (ih t h)

theorem runOps_general (ops : List StoreOp) :
    ∀ u : UserProfile, (∀ t ∈ u.transactions, t.id < u.next_transaction_id) →
      List.Chain' (· < ·) (runOps u ops).2 ∧
        (∀ i ∈ (runOps u ops).2, u.next_transaction_id ≤ i) ∧
        (∀ i ∈ (runOps u ops).2, i < (runOps u ops).1.next_transaction_id) ∧
        u.next_transaction_id ≤ (runOps u ops).1.next_transaction_id ∧
        (∀ t ∈ (runOps u ops).1.transactions,
          t.id < (runOps u ops).1.next_transaction_id ∧
            (t ∈ u.transactions ∨ t.id ∈ (runOps u ops).2)) := by
  induction ops with
  | nil =>
    intro u hu
    refine ⟨List.chain'_nil, ?_, ?_, le_refl _, ?_⟩
    · intro i hi
      cases hi
    · intro i hi
      cases hi
    · intro t ht
      exact ⟨hu t ht, Or.inl ht⟩
  | cons op ops ih =>
    intro u hu
    cases op with
    | addOp dt c s a k =>
      have etr : (addTransaction u dt c s a k).transactions =
          u.transactions ++ [⟨dt, c, s, a, k, u.next_transaction_id⟩] := rfl
      have en : (addTransaction u dt c s a k).next_transaction_id =
          u.next_transaction_id + 1 := rfl
      have hinv : ∀ t ∈ (addTransaction u dt c s a k).transactions,
          t.id < (addTransaction u dt c s a k).next_transaction_id := by
        intro t ht
        rw [etr] at ht
        rw [en]
        rcases List.mem_append.1 ht with h | h
        · have := hu t h
          omega
        · rw [List.mem_singleton] at h
          rw [h]
          show u.next_transaction_id < u.next_transaction_id + 1
          omega
      obtain ⟨ic, ilo, ihi, ile, imem⟩ := ih (addTransaction u dt c s a k) hinv
      rw [en] at ilo ile
      have e1 : (runOps u (StoreOp.addOp dt c s a k :: ops)).2 =
          u.next_transaction_id :: (runOps (addTransaction u dt c s a k) ops).2 := rfl
      have e2 : (runOps u (StoreOp.addOp dt c s a k :: ops)).1 =
          (runOps (addTransaction u dt c s a k) ops).1 := rfl
      rw [e1, e2]
      refine ⟨?_, ?_, ?_, ?_, ?_⟩
      · rw [List.chain'_cons']
        refine ⟨?_, ic⟩
        intro b hb
        have hmem : b ∈ (runOps (addTransaction u dt c s a k) ops).2 :=
          List.mem_of_mem_head? hb
        have := ilo b hmem
        omega
      · intro i hi
        rcases List.mem_cons.1 hi with h | h
        · rw [h]
        · have := ilo i h
          omega
      · intro i hi
        rcases List.mem_cons.1 hi with h | h
        · rw [h]
          omega
        · exact ihi i h
      · omega
      · intro t ht
        obtain ⟨hlt, hmem⟩ := imem t ht
        refine ⟨hlt, ?_⟩
        rcases hmem with h | h
        · rw [etr] at h
          rcases List.mem_append.1 h with h2 | h2
          · exact Or.inl h2
          · rw [List.mem_singleton] at h2
            right
            rw [h2]
            exact List.mem_cons_self _ _
        · exact Or.inr (List.mem_cons_of_mem _ h)
    | delOp tid =>
      have etr : (deleteTransaction u tid).transactions =
          eraseFirst (fun t => t.id == tid) u.transactions := rfl
      have en : (deleteTransaction u tid).next_transaction_id = u.next_transaction_id := rfl
      have hinv : ∀ t ∈ (deleteTransaction u tid).transactions,
          t.id < (deleteTransaction u tid).next_transaction_id := by
        intro t ht
        rw [etr] at ht
        rw [en]
        exact hu t (eraseFirst_subset _ _ t ht)
      obtain ⟨ic, ilo, ihi, ile, imem⟩ := ih (deleteTransaction u tid) hinv
      rw [en] at ilo ile
      have e1 : (runOps u (StoreOp.delOp tid :: ops)).2 =
          (runOps (deleteTransaction u tid) ops).2 := rfl
      have e2 : (runOps u (StoreOp.delOp tid :: ops)).1 =
          (runOps (deleteTransaction u tid) ops).1 := rfl
      rw [e1, e2]
      refine ⟨ic, ilo, ihi, ile, ?_⟩
      intro t ht
      obtain ⟨hlt, hmem⟩ := imem t ht
      refine ⟨hlt, ?_⟩
      rcases hmem with h | h
      · rw [etr] at h
        exact Or.inl (eraseFirst_subset _ _ t h)
      · exact Or.inr h

/-- C2: starting from a fresh profile, over every sequence of add and
delete operations the ids assigned by add are strictly increasing and
pairwise distinct (never reused, even across interleaved deletes), every
transaction remaining in the store carries one of the assigned ids, and
`next_transaction_id` stays strictly greater than every assigned id —
hence greater than every id currently or ever present in the store. -/
theorem runOps_ids_spec (ops : List StoreOp) :
    List.Chain' (· < ·) (runOps freshProfile ops).2 ∧
      (runOps freshProfile ops).2.Nodup ∧
      (∀ t ∈ (runOps freshProfile ops).1.transactions,
        t.id ∈ (runOps freshProfile ops).2) ∧
      (∀ i ∈ (runOps freshProfile ops).2,
        i < (runOps freshProfile ops).1.next_transaction_id) := by
  have h0 : ∀ t ∈ freshProfile.transactions, t.id < freshProfile.next_transaction_id := by
    intro t ht
    cases ht
  obtain ⟨ic, ilo, ihi, ile, imem⟩ := runOps_general ops freshProfile h0
  refine ⟨ic, ?_, ?_, ihi⟩
  · have hpw := List.chain'_iff_pairwise.1 ic
    exact hpw.imp (fun h => ne_of_lt h)
  · intro t ht
    rcases (imem t ht).2 with h | h
    · cases h
    · exact h

theorem updateFirst_forall2 (p : Transaction → Bool) (f : Transaction → Transaction) :
    ∀ ts : List Transaction,
      List.Forall₂ (fun t' t => t' = t ∨ (p t = true ∧ t' = f t)) (updateFirst p f ts) ts := by
  intro ts
  induction ts with
  | nil => exact List.Forall₂.nil
  | cons t ts ih =>
    rw [updateFirst]
    by_cases hp : p t = true
    · rw [if_pos hp]
      refine List.Forall₂.cons (Or.inr ⟨hp, rfl⟩) ?_
      rw [List.forall₂_same]
      intro x _
      exact Or.inl rfl
    · rw [if_neg hp]
      exact List.Forall₂.cons (Or.inl rfl) ih

theorem updateFirst_map_id (p : Transaction → Bool) (f : Transaction → Transaction)
    (hf : ∀ t, (f t).id = t.id) :
    ∀ ts : List Transaction, (updateFirst p f ts).map (·.id) = ts.map (·.id) := by
  intro ts
  induction ts with
  | nil => rfl
  | cons t ts ih =>
    rw [updateFirst]
    by_cases hp : p t = true
    · rw [if_pos hp]
      simp [hf t]
    · rw [if_neg hp]
      simp [ih]

/-- C8: updating the transaction with a given id never changes any id,
the store's membership or order (witnessed by the unchanged id list and
the entrywise relation), or the rest of the profile; every entry is
either untouched or is the matched one replaced in place by the field
edit, and within the edit every field the caller left empty keeps its
old value. -/
theorem updateTransaction_spec (u : UserProfile) (tid : Int) (nd nc ns na nt : String) :
    ((updateTransaction u tid nd nc ns na nt).transactions.map (·.id) =
        u.transactions.map (·.id)) ∧
      (updateTransaction u tid nd nc ns na nt).username = u.username ∧
      (updateTransaction u tid nd nc ns na nt).password = u.password ∧
      (updateTransaction u tid nd nc ns na nt).budgetPerCategory = u.budgetPerCategory ∧
      (updateTransaction u tid nd nc ns na nt).next_transaction_id = u.next_transaction_id ∧
      List.Forall₂
        (fun t' t =>
          t'.id = t.id ∧
            (nd = "" → t'.date = t.date) ∧
            (nc = "" → t'.category = t.category) ∧
            (ns = "" → t'.description = t.description) ∧
            (na = "" → t'.amount = t.amount) ∧
            (nt = "" → t'.type = t.type) ∧
            (t' = t ∨ (t.id = tid ∧ t' = editFields t nd nc ns na nt)))
        (updateTransaction u tid nd nc ns na nt).transactions u.transactions := by
  have etr : (updateTransaction u tid nd nc ns na nt).transactions =
      updateFirst (fun t => t.id == tid) (fun t => editFields t nd nc ns na nt)
        u.transactions := rfl
  refine ⟨?_, rfl, rfl, rfl, rfl, ?_⟩
  · rw [etr]
    exact updateFirst_map_id (fun t => t.id == tid)
      (fun t => editFields t nd nc ns na nt) (fun t => rfl) u.transactions
  · rw [etr]
    refine (updateFirst_forall2 _ _ u.transactions).imp ?_
    intro t' t h
    rcases h with h | ⟨hp, he⟩
    · rw [h]
      exact ⟨rfl, fun _ => rfl, fun _ => rfl, fun _ => rfl, fun _ => rfl, fun _ => rfl,
        Or.inl rfl⟩
    · rw [he]
      refine ⟨rfl, ?_, ?_, ?_, ?_, ?_, Or.inr ⟨by simpa using hp, rfl⟩⟩
      · intro hnd
        show (if nd = "" then t.date else nd) = t.date
        rw [if_pos hnd]
      · intro hnc
        show (if nc = "" then t.category else nc) = t.category
        rw [if_pos hnc]
      · intro hns
        show (if ns = "" then t.description else ns) = t.description
        rw [if_pos hns]
      · intro hna
        show (if na = "" then t.amount else
          match stofEmb na with
          | some v => v
          | none => t.amount) = t.amount
        rw [if_pos hna]
      · intro hnt
        show (if nt = "" then t.type else
          if (nt.data.headD ' ').toUpper = 'I' ∨ (nt.data.headD ' ').toUpper = 'E' then
            (nt.data.headD ' ').toUpper
          else t.type) = t.type
        rw [if_pos hnt]

theorem not_digit_of_space {c : Char} (h : isSpaceCpp c = true) : isDigitC c = false := by
  cases hd : isDigitC c
  · rfl
  · exact absurd h (by rw [not_space_of_digit hd]; simp)

theorem head_dropWhile_not (p : Char → Bool) (x : List Char) (hsp : p ' ' = false) :
    p ((x.dropWhile p).headD ' ') = false := by
  induction x with
  | nil => exact hsp
  | cons c cs ih =>
    by_cases hc : p c = true
    · rw [List.dropWhile_cons, if_pos hc]
      exact ih
    · rw [List.dropWhile_cons, if_neg hc, List.headD_cons]
      simpa using hc

theorem dropWhile_cons_prop {p : Char → Bool} {x : List Char} {c0 : Char} {t : List Char}
    (h : x.dropWhile p = c0 :: t) : p c0 = false := by
  induction x with
  | nil => cases h
  | cons a l ih =>
    rw [List.dropWhile_cons] at h
    by_cases ha : p a = true
    · rw [if_pos ha] at h
      exact ih h
    · rw [if_neg ha] at h
      injection h with h1 h2
      rw [← h1]
      simpa using ha

theorem head_ws_dash {w : List Char} (hw : IsWsRun w) (x : List Char) :
    isDigitC ((w ++ '-' :: x).headD ' ') = false := by
  cases w with
  | nil => rfl
  | cons c w' =>
    rw [List.cons_append, List.headD_cons]
    exact not_digit_of_space (hw c (List.mem_cons_self _ _))

theorem readNat_some_decomp {x r : List Char} {n : Nat} (h : readNat x = some (n, r)) :
    IsDigitRun (x.takeWhile isDigitC) ∧ x = x.takeWhile isDigitC ++ r ∧
      n = natOfDigits (x.takeWhile isDigitC) ∧ isDigitC (r.headD ' ') = false := by
  simp only [readNat] at h
  by_cases he : (x.takeWhile isDigitC).isEmpty = true
  · rw [if_pos he] at h
    exact Option.noConfusion h
  · rw [if_neg he] at h
    injection h with h1
    injection h1 with hn hr
    refine ⟨⟨?_, fun c hc => List.mem_takeWhile_imp hc⟩, ?_, hn.symm, ?_⟩
    · intro hnil
      rw [hnil] at he
      exact he rfl
    · rw [← hr]
      exact (List.takeWhile_append_dropWhile _ _).symm
    · rw [← hr]
      exact head_dropWhile_not isDigitC x (by decide)

theorem readInt_some_decomp {cs r : List Char} {v : Int}
    (h : readInt cs = some (v, r)) :
    ∃ w i, IsWsRun w ∧ IntLit i v ∧ cs = w ++ (i ++ r) ∧
      isDigitC (r.headD ' ') = false := by
  simp only [readInt] at h
  obtain ⟨W, hW⟩ : ∃ W, cs.takeWhile isSpaceCpp = W := ⟨_, rfl⟩
  obtain ⟨C, hC⟩ : ∃ C, cs.dropWhile isSpaceCpp = C := ⟨_, rfl⟩
  have hsplit : cs = W ++ C := by
    rw [← hW, ← hC, List.takeWhile_append_dropWhile]
  have hws : IsWsRun W := by
    rw [← hW]
    exact fun c hc => List.mem_takeWhile_imp hc
  rw [hC] at h
  by_cases hm : C.headD ' ' = '-'
  · obtain ⟨t, hCt⟩ : ∃ t, C = '-' :: t := by
      cases C with
      | nil => exact absurd hm (by decide)
      | cons a l =>
        rw [List.headD_cons] at hm
        exact ⟨l, by rw [hm]⟩
    subst hCt
    rw [List.headD_cons, List.tail_cons] at h
    rw [if_pos (Or.inl rfl)] at h
    cases hrn : readNat t with
    | none =>
      rw [hrn] at h
      exact Option.noConfusion h
    | some p =>
      obtain ⟨n, r'⟩ := p
      rw [hrn] at h
      have h2 : (some (-(n : Int), r') : Option (Int × List Char)) = some (v, r) := h
      injection h2 with h1
      injection h1 with hv hr
      subst hv
      subst hr
      obtain ⟨hds, hxeq, hneq, hhead⟩ := readNat_some_decomp hrn
      obtain ⟨D, hD⟩ : ∃ D, t.takeWhile isDigitC = D := ⟨_, rfl⟩
      rw [hD] at hds hxeq hneq
      refine ⟨W, '-' :: D, hws, Or.inr (Or.inr ⟨D, hds, rfl, by rw [hneq]⟩), ?_, hhead⟩
      rw [hsplit, hxeq]
      simp
  · by_cases hp : C.headD ' ' = '+'
    · obtain ⟨t, hCt⟩ : ∃ t, C = '+' :: t := by
        cases C with
        | nil => exact absurd hp (by decide)
        | cons a l =>
          rw [List.headD_cons] at hp
          exact ⟨l, by rw [hp]⟩
      subst hCt
      rw [List.headD_cons, List.tail_cons] at h
      rw [if_pos (Or.inr rfl)] at h
      cases hrn : readNat t with
      | none =>
        rw [hrn] at h
        exact Option.noConfusion h
      | some p =>
        obtain ⟨n, r'⟩ := p
        rw [hrn] at h
        have h2 : (some ((n : Int), r') : Option (Int × List Char)) = some (v, r) := h
        injection h2 with h1
        injection h1 with hv hr
        subst hv
        subst hr
        obtain ⟨hds, hxeq, hneq, hhead⟩ := readNat_some_decomp hrn
        obtain ⟨D, hD⟩ : ∃ D, t.takeWhile isDigitC = D := ⟨_, rfl⟩
        rw [hD] at hds hxeq hneq
        refine ⟨W, '+' :: D, hws, Or.inr (Or.inl ⟨D, hds, rfl, by rw [hneq]⟩), ?_, hhead⟩
        rw [hsplit, hxeq]
        simp
    · rw [if_neg (by
        rintro (hcon | hcon)
        · exact hm hcon
        · exact hp hcon)] at h
      cases hrn : readNat C with
      | none =>
        rw [hrn] at h
        exact Option.noConfusion h
      | some p =>
        obtain ⟨n, r'⟩ := p
        rw [hrn] at h
        have h2 : (some (if C.headD ' ' = '-' then -(n : Int) else (n : Int), r') :
            Option (Int × List Char)) = some (v, r) := h
        rw [if_neg hm] at h2
        injection h2 with h1
        injection h1 with hv hr
        subst hv
        subst hr
        obtain ⟨hds, hxeq, hneq, hhead⟩ := readNat_some_decomp hrn
        obtain ⟨D, hD⟩ : ∃ D, C.takeWhile isDigitC = D := ⟨_, rfl⟩
        rw [hD] at hds hxeq hneq
        refine ⟨W, D, hws, Or.inl ⟨D, hds, rfl, by rw [hneq]⟩, ?_, hhead⟩
        rw [hsplit, hxeq]

theorem readCharTok_some_decomp {cs r : List Char} {c : Char}
    (h : readCharTok cs = some (c, r)) :
    ∃ w, IsWsRun w ∧ cs = w ++ c :: r ∧ isSpaceCpp c = false := by
  rw [readCharTok] at h
  obtain ⟨W, hW⟩ : ∃ W, cs.takeWhile isSpaceCpp = W := ⟨_, rfl⟩
  obtain ⟨C, hC⟩ : ∃ C, cs.dropWhile isSpaceCpp = C := ⟨_, rfl⟩
  have hsplit : cs = W ++ C := by
    rw [← hW, ← hC, List.takeWhile_append_dropWhile]
  have hws : IsWsRun W := by
    rw [← hW]
    exact fun x hx => List.mem_takeWhile_imp hx
  rw [hC] at h
  cases C with
  | nil => exact Option.noConfusion h
  | cons c0 t =>
    have h' : (some (c0, t) : Option (Char × List Char)) = some (c, r) := h
    injection h' with h1
    injection h1 with hc0 ht
    subst hc0
    subst ht
    exact ⟨W, hws, hsplit, dropWhile_cons_prop (by rw [hC])⟩

theorem readInt_of_decomp (w i r : List Char) (v : Int) (hw : IsWsRun w) (hi : IntLit i v)
    (hr : isDigitC (r.headD ' ') = false) :
    readInt (w ++ (i ++ r)) = some (v, r) := by
  rcases hi with ⟨ds, ⟨hdne, hdd⟩, hieq, hveq⟩ | ⟨ds, ⟨hdne, hdd⟩, hieq, hveq⟩ |
    ⟨ds, ⟨hdne, hdd⟩, hieq, hveq⟩
  · obtain ⟨d0, ds', hds⟩ : ∃ d0 ds', ds = d0 :: ds' := by
      cases ds with
      | nil => exact absurd rfl hdne
      | cons a l => exact ⟨a, l, rfl⟩
    have hd0 : isDigitC d0 = true := hdd d0 (by rw [hds]; exact List.mem_cons_self _ _)
    have hdrop : (w ++ (i ++ r)).dropWhile isSpaceCpp = ds ++ r := by
      rw [List.dropWhile_append_of_pos hw, hieq, hds, List.cons_append]
      exact dropWhile_cons_neg (not_space_of_digit hd0)
    have hhd : (ds ++ r).headD ' ' = d0 := by
      rw [hds]
      rfl
    have hcond : ¬((d0 : Char) = '-' ∨ d0 = '+') := by
      rintro (hc | hc)
      · exact digit_ne hd0 (by decide) hc
      · exact digit_ne hd0 (by decide) hc
    simp only [readInt, hdrop, hhd]
    rw [if_neg hcond]
    simp only [readNat_exact hdne hdd hr]
    rw [if_neg (digit_ne hd0 (by decide) : (d0 : Char) ≠ '-'), hveq]
  · have hdrop : (w ++ (i ++ r)).dropWhile isSpaceCpp = '+' :: (ds ++ r) := by
      rw [List.dropWhile_append_of_pos hw, hieq, List.cons_append]
      exact dropWhile_cons_neg (by decide)
    simp only [readInt, hdrop, List.headD_cons, List.tail_cons]
    rw [if_pos (Or.inr True.intro)]
    rw [hveq]
    simp [readNat_exact hdne hdd hr]
  · have hdrop : (w ++ (i ++ r)).dropWhile isSpaceCpp = '-' :: (ds ++ r) := by
      rw [List.dropWhile_append_of_pos hw, hieq, List.cons_append]
      exact dropWhile_cons_neg (by decide)
    simp only [readInt, hdrop, List.headD_cons, List.tail_cons]
    rw [if_pos (Or.inl True.intro)]
    rw [hveq]
    simp [readNat_exact hdne hdd hr]

theorem readCharTok_of_decomp (w r : List Char) (c : Char) (hw : IsWsRun w)
    (hc : isSpaceCpp c = false) : readCharTok (w ++ c :: r) = some (c, r) := by
  rw [readCharTok, List.dropWhile_append_of_pos hw, dropWhile_cons_neg hc]

theorem parse_date_eq_some_iff (s : String) (y m d : Int) :
    parse_date s = some (y, m, d) ↔ DateForm s y m d := by
  constructor
  · intro h
    rw [parse_date] at h
    cases h1 : readInt s.data with
    | none =>
      rw [h1] at h
      exact Option.noConfusion h
    | some p1 =>
      obtain ⟨y1, r1⟩ := p1
      simp only [h1] at h
      cases h2 : readCharTok r1 with
      | none =>
        rw [h2] at h
        exact Option.noConfusion h
      | some p2 =>
        obtain ⟨c1, r2⟩ := p2
        simp only [h2] at h
        by_cases hc1 : c1 = '-'
        · rw [if_pos hc1] at h
          cases h3 : readInt r2 with
          | none =>
            rw [h3] at h
            exact Option.noConfusion h
          | some p3 =>
            obtain ⟨m1, r3⟩ := p3
            simp only [h3] at h
            cases h4 : readCharTok r3 with
            | none =>
              rw [h4] at h
              exact Option.noConfusion h
            | some p4 =>
              obtain ⟨c2, r4⟩ := p4
              simp only [h4] at h
              by_cases hc2 : c2 = '-'
              · rw [if_pos hc2] at h
                cases h5 : readInt r4 with
                | none =>
                  rw [h5] at h
                  exact Option.noConfusion h
                | some p5 =>
                  obtain ⟨d1, r5⟩ := p5
                  simp only [h5] at h
                  injection h with h6
                  injection h6 with hy h7
                  injection h7 with hm hd
                  subst hy
                  subst hm
                  subst hd
                  subst hc1
                  subst hc2
                  obtain ⟨w0, i1, hw0, hi1, he1, _⟩ := readInt_some_decomp h1
                  obtain ⟨w1, hw1, he2, _⟩ := readCharTok_some_decomp h2
                  obtain ⟨w2, i2, hw2, hi2, he3, _⟩ := readInt_some_decomp h3
                  obtain ⟨w3, hw3, he4, _⟩ := readCharTok_some_decomp h4
                  obtain ⟨w4, i3, hw4, hi3, he5, hd5⟩ := readInt_some_decomp h5
                  refine ⟨w0, i1, w1, w2, i2, w3, w4, i3, r5,
                    ?_, hw0, hw1, hw2, hw3, hw4, hi1, hi2, hi3, hd5⟩
                  rw [he1, he2, he3, he4, he5]
                  simp [List.append_assoc]
              · rw [if_neg hc2] at h
                exact Option.noConfusion h
        · rw [if_neg hc1] at h
          exact Option.noConfusion h
  · rintro ⟨w0, i1, w1, w2, i2, w3, w4, i3, rest, heq, hw0, hw1, hw2, hw3, hw4,
      hi1, hi2, hi3, hrest⟩
    have heq' : s.data = w0 ++ (i1 ++ (w1 ++ '-' :: (w2 ++ (i2 ++ (w3 ++ '-' ::
        (w4 ++ (i3 ++ rest))))))) := by
      rw [heq]
      simp [List.append_assoc]
    have e1 := readInt_of_decomp w0 i1
      (w1 ++ '-' :: (w2 ++ (i2 ++ (w3 ++ '-' :: (w4 ++ (i3 ++ rest)))))) y hw0 hi1
      (head_ws_dash hw1 (w2 ++ (i2 ++ (w3 ++ '-' :: (w4 ++ (i3 ++ rest))))))
    have e2 := readCharTok_of_decomp w1 (w2 ++ (i2 ++ (w3 ++ '-' :: (w4 ++ (i3 ++ rest)))))
      '-' hw1 (by decide)
    have e3 := readInt_of_decomp w2 i2 (w3 ++ '-' :: (w4 ++ (i3 ++ rest))) m hw2 hi2
      (head_ws_dash hw3 (w4 ++ (i3 ++ rest)))
    have e4 := readCharTok_of_decomp w3 (w4 ++ (i3 ++ rest)) '-' hw3 (by decide)
    have e5 := readInt_of_decomp w4 i3 rest d hw4 hi3 hrest
    simp [parse_date, heq', e1, e2, e3, e4, e5]

/-- C7: the date parser succeeds exactly on text of the shape
`<int>-<int>-<int>` — C++ stream integers (optional whitespace, optional
single sign, a nonempty digit run), literal dash separators, arbitrary
non-digit-led text after the day's digits — returning the three numeric
components, and it fails (`none`) on all other inputs; it performs no
calendar validation: month 13 and day 40 parse successfully. -/
theorem parse_date_spec :
    (∀ (s : String) (y m d : Int), parse_date s = some (y, m, d) ↔ DateForm s y m d) ∧
      parse_date "2024-13-40" = some (2024, 13, 40) :=
  ⟨fun s y m d => parse_date_eq_some_iff s y m d, by decide⟩

/-- C10: the date parser accepts more than the strict `YYYY-MM-DD`
shape: trailing text directly after the day number is ignored, interior
whitespace around the numbers is skipped, and negative numeric fields
parse, with the extracted components returned in each case. -/
theorem parse_date_lenient :
    parse_date "2024-1-5abc" = some (2024, 1, 5) ∧
      parse_date " 2024 - 1 - 5" = some (2024, 1, 5) ∧
      parse_date "2024--1-5" = some (2024, -1, 5) := by
  decide

/-- Witness for `loadFromFile_skips_bad_trans`: a `TRANS` line with five
fields after the tag is skipped and the following line still loads. -/
theorem loadFromFile_skips_bad_trans_witness :
    (tagMatch "TRANS|".data ("TRANS|1|2024-01-02|Food|10.00|E" : String).data = true ∧
      (cppSplit '|' ("TRANS|1|2024-01-02|Food|10.00|E" : String).data).length ≠ 7) ∧
      loadFromFile (["USER|u|p"] ++ "TRANS|1|2024-01-02|Food|10.00|E" :: ["NEXT_ID|5"]) =
        loadFromFile (["USER|u|p"] ++ ["NEXT_ID|5"]) :=
  ⟨⟨by decide, by decide⟩,
    loadFromFile_skips_bad_trans ["USER|u|p"] ["NEXT_ID|5"] "TRANS|1|2024-01-02|Food|10.00|E"
      (by decide) (by decide)⟩

end Finance
